import Mathlib

/-!
Verification of the pairing-and-muxing engine of the HEIC/MOV → Motion Photo
converter (`src/index.js`).  The source file contains two complete
implementations of the pipeline concatenated together: an interactive one
(lines 1–319, functions `validateDirectory`, `validateMedia`, `mergeFiles`,
`addXmpMetadata`, `createMotionPhoto`, `matchingVideo`, `uniquePath`,
`processDirectory`, `main`) and a CLI one (lines 321–578, second versions of
`validateMedia`, `mergeFiles`, `addXmpMetadata`, `convert`, `matchingVideo`,
`processDirectory`, `main`).  Both are embedded below; the CLI versions carry
a `2` suffix.

The filesystem is modelled as an association list from path strings to byte
lists plus a list of existing directories.  The external collaborators
(`heic-jpg-exif` conversion, `exiftool` metadata write) are modelled at their
interface boundary by an oracle record `Ext`; a successful `exiftool` write
sets the given keys in a per-path metadata table and creates a
`<path>_original` backup sidecar holding the file's previous bytes.  Console
logging is not modelled.  JavaScript strings are Lean `String`s and all
string operations are defined at the `List Char` level.

Definitions come first, then the whole lemma and theorem development.
-/

namespace HeicMov

abbrev Bytes := List Nat

/-- `s.toLowerCase()` (ASCII, which is all the source compares). -/
def lowerStr (s : String) : String := ⟨s.data.map Char.toLower⟩

/-- `s.endsWith(suf)`. -/
def endsWithStr (s suf : String) : Bool := decide (suf.data <:+ s.data)

/-- `s.startsWith(pre)`. -/
def startsWithStr (s pre : String) : Bool := decide (pre.data <+: s.data)

/-- `path.join(d, b)` for the simple arguments the source passes
(no trailing separators, no `..`). -/
def joinStr (d b : String) : String := if d = "" then b else d ++ "/" ++ b

/-- `path.basename(p)`: the part after the last `/`. -/
def basenameStr (p : String) : String :=
  ⟨(p.data.reverse.takeWhile (fun c => decide (c ≠ '/'))).reverse⟩

/-- `path.dirname(p)`: the part before the last `/`, or `"."` if there is
no separator. -/
def dirnameStr (p : String) : String :=
  if '/' ∈ p.data then
    ⟨((p.data.reverse.dropWhile (fun c => decide (c ≠ '/'))).drop 1).reverse⟩
  else "."

/-- Split a bare filename into Node's `(name, ext)`: the extension starts at
the last `.` unless that dot is the leading character (dotfile). -/
def extSplitData (l : List Char) : List Char × List Char :=
  let tl := l.reverse.takeWhile (fun c => decide (c ≠ '.'))
  if tl.length = l.length then (l, [])
  else if tl.length + 1 = l.length then (l, [])
  else (l.take (l.length - tl.length - 1), l.drop (l.length - tl.length - 1))

/-- `path.parse(p).name`. -/
def parseNameStr (p : String) : String := ⟨(extSplitData (basenameStr p).data).1⟩

/-- `path.parse(p).ext`, also `path.extname(p)`. -/
def parseExtStr (p : String) : String := ⟨(extSplitData (basenameStr p).data).2⟩

/-- Fuelled digit extraction (structural recursion keeps it
kernel-computable); `fuel > n` always suffices. -/
def decCharsGo : Nat → Nat → List Char
  | 0, _ => []
  | fuel + 1, n =>
    if n < 10 then [Nat.digitChar n]
    else decCharsGo fuel (n / 10) ++ [Nat.digitChar (n % 10)]

/-- Decimal rendering of a natural number, as a JavaScript template literal
renders a number (`` `${counter}` ``). -/
def decChars (n : Nat) : List Char := decCharsGo (n + 1) n

def decStr (n : Nat) : String := ⟨decChars n⟩

instance instDecEqExcept {ε α : Type _} [DecidableEq ε] [DecidableEq α] :
    DecidableEq (Except ε α)
  | .ok x, .ok y => decidable_of_iff (x = y) ⟨fun h => h ▸ rfl, fun h => by injection h⟩
  | .ok _, .error _ => isFalse fun h => by injection h
  | .error _, .ok _ => isFalse fun h => by injection h
  | .error e, .error f => decidable_of_iff (e = f) ⟨fun h => h ▸ rfl, fun h => by injection h⟩

/-- Decimal value of a digit string; left inverse of `decChars`. -/
def decVal (l : List Char) : Nat := l.foldl (fun a c => 10 * a + (c.toNat - 48)) 0

def findVal? {α : Type _} (l : List (String × α)) (p : String) : Option α :=
  (l.find? (fun e => decide (e.1 = p))).map (·.2)

def hasKey {α : Type _} (l : List (String × α)) (p : String) : Bool :=
  l.any (fun e => decide (e.1 = p))

/-- Replace the value in place if the key is present, append otherwise
(the behaviour of `fs.writeFileSync`). -/
def setVal {α : Type _} (l : List (String × α)) (p : String) (b : α) : List (String × α) :=
  if hasKey l p then l.map (fun e => if e.1 = p then (p, b) else e) else l ++ [(p, b)]

def delKey {α : Type _} (l : List (String × α)) (p : String) : List (String × α) :=
  l.filter (fun e => decide (e.1 ≠ p))

structure FS where
  /-- `path ↦ contents`; listing order of a directory is the order here. -/
  files : List (String × Bytes)
  /-- existing directories -/
  dirs : List String
deriving DecidableEq

def hasFile (fs : FS) (p : String) : Bool := hasKey fs.files p

def hasDir (fs : FS) (p : String) : Bool := fs.dirs.any (fun d => decide (d = p))

/-- `fs.existsSync(p)`. -/
def existsSync (fs : FS) (p : String) : Bool := hasFile fs p || hasDir fs p

/-- `fs.lstatSync(p).isDirectory()` (meaningful for existing paths). -/
def isDirectory (fs : FS) (p : String) : Bool := hasDir fs p

/-- `fs.readFileSync(p)`, `none` meaning the ENOENT throw. -/
def readFileSync? (fs : FS) (p : String) : Option Bytes := findVal? fs.files p

/-- `fs.statSync(p).size`, `none` meaning the ENOENT throw. -/
def statSize? (fs : FS) (p : String) : Option Nat := (readFileSync? fs p).map List.length

/-- `fs.writeFileSync(p, data)`: replace in place or append a new entry. -/
def writeFileSync (fs : FS) (p : String) (data : Bytes) : FS :=
  { fs with files := setVal fs.files p data }

/-- `fs.unlinkSync(p)`, `none` meaning the ENOENT throw. -/
def unlinkSync? (fs : FS) (p : String) : Option FS :=
  if hasFile fs p then some { fs with files := delKey fs.files p } else none

/-- `fs.renameSync(src, dst)`, `none` meaning the ENOENT throw. -/
def renameSync? (fs : FS) (src dst : String) : Option FS :=
  match readFileSync? fs src with
  | some b => some (writeFileSync { fs with files := delKey fs.files src } dst b)
  | none => none

def addDir (fs : FS) (d : String) : FS :=
  if hasDir fs d then fs else { fs with dirs := fs.dirs ++ [d] }

/-- Split a character list on `/`. -/
def splitSlash (l : List Char) : List (List Char) :=
  match l with
  | [] => [[]]
  | c :: rest =>
    match splitSlash rest with
    | [] => [[]]
    | g :: gs => if c = '/' then [] :: g :: gs else (c :: g) :: gs

/-- Join path components with `/`. -/
def joinParts : List (List Char) → List Char
  | [] => []
  | [part] => part
  | part :: parts => part ++ '/' :: joinParts parts

/-- The chain of ancestors `a`, `a/b`, …, `p` created by a recursive mkdir. -/
def ancestorsStr (p : String) : List String :=
  let parts := (splitSlash p.data).filter (fun s => decide (s ≠ []))
  (List.range parts.length).map (fun i => ⟨joinParts (parts.take (i + 1))⟩)

/-- `fs.mkdirSync(p, { recursive: true })`. -/
def mkdirRecursive (fs : FS) (p : String) : FS := (ancestorsStr p).foldl addDir fs

/-- `fs.readdirSync(d)`: base names of the files whose parent is `d`, in
insertion order (directory entries that are themselves directories are not
modelled). -/
def readdirSync (fs : FS) (d : String) : List String :=
  (fs.files.filter (fun e => decide (dirnameStr e.1 = d))).map (fun e => basenameStr e.1)

abbrev Meta := List (String × Int)

def metaSetAll (m : Meta) (tags : Meta) : Meta :=
  tags.foldl (fun acc kv => setVal acc kv.1 kv.2) m

/-- Filesystem plus the metadata table maintained by the external
`exiftool` service. -/
structure Sys where
  fs : FS
  xmp : List (String × Meta)
deriving DecidableEq

def getXmp (sys : Sys) (p : String) : Meta := (findVal? sys.xmp p).getD []

/-- Oracle for the two black-box collaborators. -/
structure Ext where
  /-- does `heic-jpg-exif` succeed on this input path -/
  heicOk : String → Bool
  /-- the JPEG bytes it produces -/
  heicBytes : String → Bytes
  /-- does an `exiftool` write succeed on this path -/
  exifOk : String → Bool

/-- A successful `exiftool` write: merge the tags into the path's metadata
and create the `<path>_original` backup sidecar with the file's previous
bytes.  `none` models the write rejecting the file. -/
def exiftoolWrite? (ext : Ext) (sys : Sys) (p : String) (tags : Meta) : Option Sys :=
  if ext.exifOk p then
    some { fs := writeFileSync sys.fs (p ++ "_original") ((readFileSync? sys.fs p).getD []),
           xmp := setVal sys.xmp p (metaSetAll (getXmp sys p) tags) }
  else none

inductive JsErr
  /-- an `ENOENT` throw from `readFileSync` / `statSync` / `unlinkSync` /
  `renameSync` -/
  | enoent (p : String)
  /-- the `exiftool.write` promise rejecting -/
  | metadataWrite (p : String)
deriving DecidableEq

/-- Process state of the interactive implementation: the filesystem plus the
two module-level mutable arrays `problematicFiles` and `processedFiles`. -/
structure St where
  sys : Sys
  problematicFiles : List String
  processedFiles : List String
deriving DecidableEq

inductive DirStatus
  | noPath | notFound | notDirectory | ok
deriving DecidableEq

/-- The three guard clauses of `validateDirectory`, kept apart so the
distinct failure messages (spec: `NotFoundError` vs `InvalidInputError`)
stay distinguishable. -/
def checkDirectory (fs : FS) (dir : String) : DirStatus :=
  if dir = "" then .noPath
  else if !existsSync fs dir then .notFound
  else if !isDirectory fs dir then .notDirectory
  else .ok

def validateDirectory (fs : FS) (dir : String) : Bool :=
  decide (checkDirectory fs dir = .ok)

def validateFile (fs : FS) (filePath : String) : Bool :=
  !(decide (filePath = "")) && existsSync fs filePath

def validateMedia (fs : FS) (photoPath videoPath : String) : Bool :=
  validateFile fs photoPath && validateFile fs videoPath &&
    (endsWithStr (lowerStr photoPath) ".jpg" || endsWithStr (lowerStr photoPath) ".jpeg") &&
    (endsWithStr (lowerStr videoPath) ".mov" || endsWithStr (lowerStr videoPath) ".mp4")

/-- `mergeFiles(photoPath, videoPath, outputPath)`: read both inputs, create
the output directory, write their concatenation, record both inputs as
processed, return the output path. -/
def mergeFiles (st : St) (photoPath videoPath outputPath : String) :
    Except JsErr (St × String) :=
  let outPath := joinStr outputPath (basenameStr photoPath)
  let fs₀ := mkdirRecursive st.sys.fs (dirnameStr outPath)
  match readFileSync? fs₀ photoPath with
  | none => .error (.enoent photoPath)
  | some photoData =>
    match readFileSync? fs₀ videoPath with
    | none => .error (.enoent videoPath)
    | some videoData =>
      .ok ({ st with
              sys := { st.sys with fs := writeFileSync fs₀ outPath (photoData ++ videoData) },
              processedFiles := st.processedFiles ++ [photoPath, videoPath] },
           outPath)

/-- The four `XMP:MicroVideo*` tags the interactive implementation writes. -/
def microVideoTags (offset : Int) : Meta :=
  [("XMP:MicroVideo", 1), ("XMP:MicroVideoVersion", 1), ("XMP:MicroVideoOffset", offset),
   ("XMP:MicroVideoPresentationTimestampUs", 1500000)]

/-- `addXmpMetadata(mergedFile, offset)`: write the four tags, then try to
delete the `_original` sidecar, a failure being caught and only logged. -/
def addXmpMetadata (ext : Ext) (sys : Sys) (mergedFile : String) (offset : Int) :
    Except JsErr Sys :=
  match exiftoolWrite? ext sys mergedFile (microVideoTags offset) with
  | none => .error (.metadataWrite mergedFile)
  | some sys₁ =>
    match unlinkSync? sys₁.fs (mergedFile ++ "_original") with
    | some fs₂ => .ok { sys₁ with fs := fs₂ }
    | none => .ok sys₁

/-- `createMotionPhoto(photoPath, videoPath, outputPath)`: validate (returning
silently on failure), merge, re-measure both sizes with `statSync`, annotate. -/
def createMotionPhoto (ext : Ext) (st : St) (photoPath videoPath outputPath : String) :
    Except JsErr St :=
  if !validateMedia st.sys.fs photoPath videoPath then .ok st
  else
    match mergeFiles st photoPath videoPath outputPath with
    | .error e => .error e
    | .ok (st₁, merged) =>
      match statSize? st₁.sys.fs photoPath with
      | none => .error (.enoent photoPath)
      | some photoFilesize =>
        match statSize? st₁.sys.fs merged with
        | none => .error (.enoent merged)
        | some mergedFilesize =>
          match addXmpMetadata ext st₁.sys merged ((mergedFilesize : Int) - photoFilesize) with
          | .error e => .error e
          | .ok sys₂ => .ok { st₁ with sys := sys₂ }

/-- Candidate test of `matchingVideo`: the directory entry starts with the
photo's stem and ends (case-insensitively) in `.mov` or `.mp4`. -/
def matchCand (base f : String) : Bool :=
  startsWithStr f base &&
    (endsWithStr (lowerStr f) ".mov" || endsWithStr (lowerStr f) ".mp4")

def matchingVideoGo (videoDir base : String) : List String → Option String
  | [] => none
  | f :: rest =>
    if matchCand base f then some (joinStr videoDir f) else matchingVideoGo videoDir base rest

/-- `matchingVideo(photoPath, videoDir)`: the first directory entry matching
the stem-and-extension test, joined to the directory. -/
def matchingVideo (fs : FS) (photoPath videoDir : String) : Option String :=
  matchingVideoGo videoDir (parseNameStr photoPath) (readdirSync fs videoDir)

/-- Candidate filename tried by `uniquePath` at loop iteration `k`:
the original filename first, then `name(1).ext`, `name(2).ext`, … -/
def uniqueCandidate (name ext filename : String) : Nat → String
  | 0 => filename
  | k + 1 => name ++ "(" ++ decStr (k + 1) ++ ")" ++ ext

def uniquePathGo (fs : FS) (destination name ext : String) :
    String → Nat → Nat → String
  | newFilename, _, 0 => joinStr destination newFilename
  | newFilename, counter, fuel + 1 =>
    if existsSync fs (joinStr destination newFilename) then
      uniquePathGo fs destination name ext
        (name ++ "(" ++ decStr counter ++ ")" ++ ext) (counter + 1) fuel
    else joinStr destination newFilename

/-- `uniquePath(destination, filename)`: appends `(counter)` suffixes until
an unused name is found.  The source's `while` loop is unbounded; the fuel
given here is proved sufficient for it to find a free name
(`c10_uniquePath_fresh`). -/
def uniquePath (fs : FS) (destination filename : String) : String :=
  let name := parseNameStr filename
  let ext := parseExtStr filename
  uniquePathGo fs destination name ext filename 1 (fs.files.length + fs.dirs.length + 1)

structure Flags where
  moveOtherImages : Bool
  convertAllHeic : Bool
  deleteConverted : Bool

/-- `convertHeicToJpeg(heicPath)`: on success writes `<stem>.jpg` into the
current working directory (the source builds the name from
`path.parse(heicPath).name` only, dropping the directory) and records the
heic as processed; on failure records it as problematic and returns `null`. -/
def convertHeicToJpeg (ext : Ext) (st : St) (heicPath : String) : St × Option String :=
  if ext.heicOk heicPath then
    let jpegPath := parseNameStr heicPath ++ ".jpg"
    ({ st with
        sys := { st.sys with fs := writeFileSync st.sys.fs jpegPath (ext.heicBytes heicPath) },
        processedFiles := st.processedFiles ++ [heicPath] }, some jpegPath)
  else
    ({ st with problematicFiles := st.problematicFiles ++ [heicPath] }, none)

/-- The `if (deleteConverted && fs.existsSync(filePath))` block; the unlink
is inside a `try`/`catch` that only logs. -/
def deleteConvertedStep (flags : Flags) (st : St) (filePath : String) : St :=
  if flags.deleteConverted && existsSync st.sys.fs filePath then
    match unlinkSync? st.sys.fs filePath with
    | some fs₁ => { st with sys := { st.sys with fs := fs₁ } }
    | none => st
  else st

/-- The `.heic` branch of the `processDirectory` loop body. -/
def processHeicFile (ext : Ext) (flags : Flags) (inDir outDir : String) (st : St)
    (f : String) : Except JsErr St :=
  let filePath := joinStr inDir f
  if flags.convertAllHeic || (matchingVideo st.sys.fs filePath inDir).isSome then
    match convertHeicToJpeg ext st filePath with
    | (st₁, some jpegPath) =>
      (match matchingVideo st₁.sys.fs jpegPath inDir with
       | some videoPath =>
         (match createMotionPhoto ext st₁ jpegPath videoPath outDir with
          | .error e => .error e
          | .ok st₂ =>
            match unlinkSync? st₂.sys.fs jpegPath with
            | some fs₂ =>
              .ok (deleteConvertedStep flags { st₂ with sys := { st₂.sys with fs := fs₂ } }
                    filePath)
            | none => .error (.enoent jpegPath))
       | none => .ok (deleteConvertedStep flags st₁ filePath))
    | (st₁, none) => .ok (deleteConvertedStep flags st₁ filePath)
  else .ok st

/-- The `.jpg` / `.jpeg` branch of the `processDirectory` loop body. -/
def processJpegFile (ext : Ext) (inDir outDir : String) (st : St) (f : String) :
    Except JsErr St :=
  let filePath := joinStr inDir f
  match matchingVideo st.sys.fs filePath inDir with
  | some videoPath => createMotionPhoto ext st filePath videoPath outDir
  | none => .ok st

/-- The `for (const file of files)` loop of `processDirectory`; the listing
is fixed before the loop starts. -/
def processFiles (ext : Ext) (flags : Flags) (inDir outDir : String) :
    List String → St → Except JsErr St
  | [], st => .ok st
  | f :: rest, st =>
    if endsWithStr (lowerStr f) ".heic" then
      match processHeicFile ext flags inDir outDir st f with
      | .error e => .error e
      | .ok st₁ => processFiles ext flags inDir outDir rest st₁
    else if endsWithStr (lowerStr f) ".jpg" || endsWithStr (lowerStr f) ".jpeg" then
      match processJpegFile ext inDir outDir st f with
      | .error e => .error e
      | .ok st₁ => processFiles ext flags inDir outDir rest st₁
    else processFiles ext flags inDir outDir rest st

def mediaExtsList : List String := [".heic", ".jpg", ".jpeg", ".mov", ".mp4", ".png", ".gif"]

/-- The `moveOtherImages` cleanup loop: every listed media file that was not
processed is renamed into `other_files` under a collision-free name. -/
def moveOtherLoop (inDir otherDir : String) : List String → St → Except JsErr St
  | [], st => .ok st
  | f :: rest, st =>
    let filePath := joinStr inDir f
    if mediaExtsList.any (fun e => decide (e = lowerStr (parseExtStr f))) &&
        !(st.processedFiles.any (fun q => decide (q = filePath))) then
      match renameSync? st.sys.fs filePath
          (uniquePath st.sys.fs otherDir (basenameStr filePath)) with
      | some fs₁ => moveOtherLoop inDir otherDir rest { st with sys := { st.sys with fs := fs₁ } }
      | none => .error (.enoent filePath)
    else moveOtherLoop inDir otherDir rest st

inductive BatchResult
  /-- `process.exit(1)` from `processDirectory`'s directory validation,
  with the process state at exit -/
  | exitOne (st : St)
  /-- an exception escaping the loop: an unhandled promise rejection that
  terminates the process -/
  | exn (e : JsErr)
deriving DecidableEq

def processDirectory (ext : Ext) (flags : Flags) (st : St) (inputDir outputDir : String) :
    Except BatchResult St :=
  if !validateDirectory st.sys.fs inputDir then .error (.exitOne st)
  else if !validateDirectory st.sys.fs outputDir then .error (.exitOne st)
  else
    let files := readdirSync st.sys.fs inputDir
    match processFiles ext flags inputDir outputDir files st with
    | .error e => .error (.exn e)
    | .ok st₁ =>
      if flags.moveOtherImages then
        let otherFilesDir := joinStr outputDir "other_files"
        let st₂ := { st₁ with sys := { st₁.sys with fs := mkdirRecursive st₁.sys.fs otherFilesDir } }
        match moveOtherLoop inputDir otherFilesDir files st₂ with
        | .error e => .error (.exn e)
        | .ok st₃ => .ok st₃
      else .ok st₁

/-- Exit code and problem report of `main` after the prompts: validate the
input directory (`process.exit(1)` on failure), run `processDirectory`, then
write `problematic_files.txt` when the problem list is non-empty and
`process.exit(0)`.  An unhandled rejection terminates the process with a
non-zero code and no report; the report is returned here as the `Option`. -/
def mainCore (ext : Ext) (flags : Flags) (st : St) (inputDir outputDir : String) :
    Nat × Option (List String) :=
  if !validateDirectory st.sys.fs inputDir then (1, none)
  else
    match processDirectory ext flags st inputDir outputDir with
    | .error _ => (1, none)
    | .ok st₁ => (0, if st₁.problematicFiles = [] then none else some st₁.problematicFiles)

/-- `path.parse(p).dir`: like `dirname` but empty (not `"."`) for a bare
filename. -/
def parseDirStr (p : String) : String :=
  if '/' ∈ p.data then
    ⟨((p.data.reverse.dropWhile (fun c => decide (c ≠ '/'))).drop 1).reverse⟩
  else ""

/-- Node resolves a literal `./` prefix when hitting the filesystem. -/
def normPath (p : String) : String :=
  if startsWithStr p "./" then ⟨p.data.drop 2⟩ else p

/-- The CLI `matchingVideo(photoPath)`: probes `./dir/stem` plus `.mov`,
`.mp4`, `.MOV`, `.MP4` in that fixed order and returns the first that
exists, or `""`. -/
def matchingVideo2 (fs : FS) (photoPath : String) : String :=
  let base := "./" ++ parseDirStr photoPath ++ "/" ++ parseNameStr photoPath
  if existsSync fs (normPath (base ++ ".mov")) then base ++ ".mov"
  else if existsSync fs (normPath (base ++ ".mp4")) then base ++ ".mp4"
  else if existsSync fs (normPath (base ++ ".MOV")) then base ++ ".MOV"
  else if existsSync fs (normPath (base ++ ".MP4")) then base ++ ".MP4"
  else ""

/-- A filesystem together with the not-yet-performed writes of stream pipes
that were started but whose I/O callbacks have not run. -/
structure Pending where
  fs : FS
  pending : List (String × Bytes)
deriving DecidableEq

/-- The filesystem once the event loop has run the scheduled copies. -/
def completePending (p : Pending) : FS :=
  p.pending.foldl (fun fs e => writeFileSync fs e.1 e.2) p.fs

/-- The CLI `mergeFiles`: `createWriteStream`/`pipe` perform no synchronous
filesystem mutation; the concatenated copy is only scheduled, and the
function returns the output path immediately. -/
def mergeFiles2 (fs : FS) (photoPath videoPath outputPath : String) : Pending × String :=
  let outPath := joinStr outputPath (basenameStr photoPath)
  let fs₀ := mkdirRecursive fs (dirnameStr outPath)
  ({ fs := fs₀,
     pending := [(outPath,
       ((readFileSync? fs₀ photoPath).getD []) ++ ((readFileSync? fs₀ videoPath).getD []))] },
   outPath)

/-- The four `Xmp.GCamera.*` keys the CLI implementation writes. -/
def gCameraTags (offset : Int) : Meta :=
  [("Xmp.GCamera.MicroVideo", 1), ("Xmp.GCamera.MicroVideoVersion", 1),
   ("Xmp.GCamera.MicroVideoOffset", offset),
   ("Xmp.GCamera.MicroVideoPresentationTimestampUs", 1500000)]

/-- The CLI `addXmpMetadata`: read the existing metadata, set the four keys,
write the merged mapping back.  It deletes no `_original` sidecar. -/
def addXmpMetadata2 (ext : Ext) (sys : Sys) (mergedFile : String) (offset : Int) :
    Except JsErr Sys :=
  let metadata := metaSetAll (getXmp sys mergedFile) (gCameraTags offset)
  match exiftoolWrite? ext sys mergedFile metadata with
  | none => .error (.metadataWrite mergedFile)
  | some sys₁ => .ok sys₁

def statSizeE (fs : FS) (p : String) : Except JsErr Nat :=
  match statSize? fs p with
  | some n => .ok n
  | none => .error (.enoent p)

/-- The CLI `convert`: start the merge, then `statSync` both paths in the
same synchronous turn — before the event loop has run the scheduled stream
copy — and annotate with `merged size - photo size`. -/
def convert2 (ext : Ext) (sys : Sys) (photoPath videoPath outputPath : String) :
    Except JsErr Sys :=
  let pm := mergeFiles2 sys.fs photoPath videoPath outputPath
  match statSizeE pm.1.fs photoPath with
  | .error e => .error e
  | .ok photoFilesize =>
    match statSizeE pm.1.fs pm.2 with
    | .error e => .error e
    | .ok mergedFilesize =>
      addXmpMetadata2 ext { sys with fs := pm.1.fs } pm.2
        ((mergedFilesize : Int) - (photoFilesize : Int))

/-! ### Concrete fixtures used by witnesses and counterexamples -/

/-- An oracle on which every external call succeeds. -/
def extOk : Ext := ⟨fun _ => true, fun _ => [9, 9], fun _ => true⟩

/-- An oracle on which every `exiftool` write fails. -/
def extExifFail : Ext := ⟨fun _ => true, fun _ => [9, 9], fun _ => false⟩

/-- An oracle on which every HEIC conversion fails. -/
def extHeicFail : Ext := ⟨fun _ => false, fun _ => [], fun _ => true⟩

def sysOf (files : List (String × Bytes)) (dirs : List String) : Sys :=
  { fs := { files := files, dirs := dirs }, xmp := [] }

def stOf (files : List (String × Bytes)) (dirs : List String) : St :=
  { sys := sysOf files dirs, problematicFiles := [], processedFiles := [] }

/-- One matched pair under `in/`, output root `out/`. -/
def stPair : St := stOf [("in/a.jpg", [7]), ("in/a.mov", [8, 9])] ["in", "out"]

/-- A pair whose directory is also used as the output root. -/
def stC9 : St := stOf [("d/p.jpg", [1]), ("d/p.mov", [2])] ["d"]

/-- A muxed artifact awaiting annotation. -/
def sysC6 : Sys := sysOf [("out/m.jpg", [1, 2])] ["out"]

/-- State after annotating `sysC6` once with the interactive annotator. -/
def c7s1 : Sys := (addXmpMetadata extOk sysC6 "out/m.jpg" 5).toOption.getD sysC6

/-- State after annotating `sysC6` twice with the interactive annotator. -/
def c7s2 : Sys := (addXmpMetadata extOk c7s1 "out/m.jpg" 5).toOption.getD sysC6

/-- State after annotating `sysC6` once with the CLI annotator. -/
def c7t1 : Sys := (addXmpMetadata2 extOk sysC6 "out/m.jpg" 5).toOption.getD sysC6

/-- State after annotating `sysC6` twice with the CLI annotator. -/
def c7t2 : Sys := (addXmpMetadata2 extOk c7t1 "out/m.jpg" 5).toOption.getD sysC6

/-- The four metadata keys of the interactive implementation. -/
def microVideoKeys : List String :=
  ["XMP:MicroVideo", "XMP:MicroVideoVersion", "XMP:MicroVideoOffset",
   "XMP:MicroVideoPresentationTimestampUs"]

/-- The four metadata keys of the CLI implementation. -/
def gCameraKeys : List String :=
  ["Xmp.GCamera.MicroVideo", "Xmp.GCamera.MicroVideoVersion", "Xmp.GCamera.MicroVideoOffset",
   "Xmp.GCamera.MicroVideoPresentationTimestampUs"]

/-- A fresh valid pair for the CLI `convert`. -/
def sysC2 : Sys := sysOf [("in/a.jpg", [1, 1, 1]), ("in/a.mov", [2, 2, 2, 2, 2])] ["in", "out"]

def flags0 : Flags := ⟨false, false, false⟩

/-- A still whose only candidate video is prefix-named (`A_x.mov`). -/
def fsC4 : FS := ⟨[("d/A.jpg", [1]), ("d/A_x.mov", [2])], ["d"]⟩

/-- A still with two candidate videos; `B.mp4` is listed first. -/
def fsC4w : FS := ⟨[("d/B.jpg", [1]), ("d/B.mp4", [2]), ("d/B.mov", [3])], ["d"]⟩

/-- Destination folder `o` already holding `f.txt` and `f(1).txt`. -/
def fsC10 : FS := ⟨[("o/f.txt", [1]), ("o/f(1).txt", [2]), ("x/f.txt", [3])], ["o", "x"]⟩

/-- `fsC10` after moving `x/f.txt` to the collision-free name. -/
def c10fs : FS := (renameSync? fsC10 "x/f.txt" (uniquePath fsC10 "o" "f.txt")).getD fsC10

/-- The name has one of the extensions handled by the `processDirectory`
loop (compared on the lowercased name, as the source does). -/
def imageExtFile (f : String) : Bool :=
  endsWithStr (lowerStr f) ".heic" || endsWithStr (lowerStr f) ".jpg" ||
    endsWithStr (lowerStr f) ".jpeg"

/-- Two matched pairs, used to show an annotation failure aborting the
batch. -/
def stC5 : St :=
  stOf [("in/A.jpg", [1]), ("in/A.mov", [2, 2]), ("in/B.jpg", [3]), ("in/B.mov", [4, 4])]
    ["in", "out"]

/-- A HEIC pair (whose conversion will fail) plus a JPEG pair. -/
def stC5w : St :=
  stOf [("in/c.heic", [5]), ("in/c.mov", [6]), ("in/A.jpg", [1]), ("in/A.mov", [2, 2])]
    ["in", "out"]

/-! ### Lemma development -/

theorem extSplitData_append (l : List Char) :
    (extSplitData l).1 ++ (extSplitData l).2 = l := by
  unfold extSplitData
  dsimp only
  split
  · simp
  · split
    · simp
    · exact List.take_append_drop _ l

theorem basenameStr_no_slash (p : String) : '/' ∉ (basenameStr p).data := by
  intro h
  simp only [basenameStr, List.mem_reverse] at h
  have := List.mem_takeWhile_imp h
  simp at this

theorem stringDataInj {a b : String} (h : a.data = b.data) : a = b := by
  cases a; cases b; exact congrArg String.mk h

theorem joinStr_right_inj (d : String) {b b' : String} (h : joinStr d b = joinStr d b') :
    b = b' := by
  unfold joinStr at h
  split at h
  · exact h
  · have hd : (d ++ "/" ++ b).data = (d ++ "/" ++ b').data := by rw [h]
    simp only [String.data_append] at hd
    exact stringDataInj (List.append_cancel_left hd)

theorem digitCharStar {d : Nat} (h : 16 ≤ d) : Nat.digitChar d = '*' := by
  unfold Nat.digitChar
  repeat rw [if_neg (by omega)]

/-- The digits emitted by `Nat.digitChar` are never a path separator. -/
theorem digitChar_ne_slash (d : Nat) : Nat.digitChar d ≠ '/' := by
  rcases Nat.lt_or_ge d 16 with h | h
  · interval_cases d <;> decide
  · rw [digitCharStar h]; decide

theorem decCharsGo_ne_nil (fuel n : Nat) (h : n < fuel) : decCharsGo fuel n ≠ [] := by
  cases fuel with
  | zero => omega
  | succ fuel =>
    rw [decCharsGo]
    split
    · simp
    · simp

theorem decChars_ne_nil (n : Nat) : decChars n ≠ [] :=
  decCharsGo_ne_nil (n + 1) n (by omega)

theorem decCharsGo_no_slash (fuel n : Nat) : '/' ∉ decCharsGo fuel n := by
  induction fuel generalizing n with
  | zero => simp [decCharsGo]
  | succ fuel ih =>
    rw [decCharsGo]
    split
    · intro h
      simp only [List.mem_singleton] at h
      exact digitChar_ne_slash n h.symm
    · intro h
      rcases List.mem_append.mp h with h' | h'
      · exact ih (n / 10) h'
      · simp only [List.mem_singleton] at h'
        exact digitChar_ne_slash (n % 10) h'.symm

theorem decChars_no_slash (n : Nat) : '/' ∉ decChars n := decCharsGo_no_slash (n + 1) n

theorem digitChar_toNat (d : Nat) (h : d < 10) : (Nat.digitChar d).toNat - 48 = d := by
  interval_cases d <;> decide

theorem decVal_decCharsGo (fuel : Nat) :
    ∀ n, n < fuel → decVal (decCharsGo fuel n) = n := by
  induction fuel with
  | zero => omega
  | succ fuel ih =>
    intro n hn
    rw [decCharsGo]
    split
    · next h =>
      simp [decVal, digitChar_toNat n h]
    · next h =>
      have hrec : n / 10 < fuel := by
        have := Nat.div_lt_self (show 0 < n by omega) (show 1 < 10 by omega)
        omega
      have ihd := ih (n / 10) hrec
      simp only [decVal, List.foldl_append, List.foldl_cons, List.foldl_nil] at ihd ⊢
      rw [ihd, digitChar_toNat (n % 10) (by omega)]
      omega

theorem decVal_decChars (n : Nat) : decVal (decChars n) = n :=
  decVal_decCharsGo (n + 1) n (by omega)

theorem decChars_injective : Function.Injective decChars := by
  intro m n h
  have := congrArg decVal h
  rwa [decVal_decChars, decVal_decChars] at this

theorem decStr_injective : Function.Injective decStr := by
  intro m n h
  apply decChars_injective
  simpa [decStr] using congrArg String.data h

theorem hasKey_eq_isSome {α : Type _} (l : List (String × α)) (p : String) :
    hasKey l p = (findVal? l p).isSome := by
  induction l with
  | nil => rfl
  | cons a l ih =>
    by_cases ha : a.1 = p
    · simp [hasKey, findVal?, List.find?, ha]
    · simp only [hasKey, findVal?, List.any_cons, List.find?] at ih ⊢
      rw [show (decide (a.1 = p)) = false by simp [ha]]
      simpa using ih

theorem findVal?_replace {α : Type _} (l : List (String × α)) (p : String) (b : α) (q : String) :
    findVal? (l.map (fun e => if e.1 = p then (p, b) else e)) q =
      if q = p then (if hasKey l p then some b else none) else findVal? l q := by
  induction l with
  | nil => by_cases h : q = p <;> simp [findVal?, hasKey, h]
  | cons a l ih =>
    by_cases ha : a.1 = p
    · by_cases hq : q = p
      · subst hq
        simp [findVal?, hasKey, List.find?, ha]
      · have hne : ¬ (p = q) := fun h => hq h.symm
        simp only [findVal?, hasKey, List.map_cons, if_pos ha, List.find?] at ih ⊢
        rw [show (decide (p = q)) = false by simp [hne]]
        rw [show (decide (a.1 = q)) = false by simp [ha ▸ hne]]
        simp only [if_neg hq] at ih ⊢
        exact ih
    · by_cases hq : a.1 = q
      · have hqp : ¬ (q = p) := fun h => ha (hq.symm ▸ h)
        simp [findVal?, List.find?, if_neg ha, hq, hqp]
      · simp only [findVal?, hasKey, List.map_cons, if_neg ha, List.find?, List.any_cons] at ih ⊢
        simp only [show (decide (a.1 = q)) = false by simp [hq],
          show (decide (a.1 = p)) = false by simp [ha], Bool.false_or]
        simpa using ih

theorem findVal?_appendOne {α : Type _} (l : List (String × α)) (p : String) (b : α) (q : String)
    (hk : hasKey l p = false) :
    findVal? (l ++ [(p, b)]) q = if q = p then some b else findVal? l q := by
  induction l with
  | nil =>
    by_cases h : q = p
    · simp [findVal?, List.find?, h]
    · have hpq : ¬ (p = q) := fun hh => h hh.symm
      simp [findVal?, List.find?, h, hpq]
  | cons a l ih =>
    simp only [hasKey, List.any_cons, Bool.or_eq_false_iff, decide_eq_false_iff_not] at hk
    obtain ⟨hap, hkl⟩ := hk
    by_cases hq : a.1 = q
    · have hqp : ¬ (q = p) := fun h => hap (hq.symm ▸ h)
      simp [findVal?, List.find?, hq, hqp]
    · have ih' := ih (by simp [hasKey, hkl])
      simp only [findVal?, List.cons_append, List.find?] at ih' ⊢
      rw [show (decide (a.1 = q)) = false by simp [hq]]
      simpa using ih'

theorem findVal?_setVal {α : Type _} (l : List (String × α)) (p : String) (b : α) (q : String) :
    findVal? (setVal l p b) q = if q = p then some b else findVal? l q := by
  unfold setVal
  by_cases hk : hasKey l p
  · rw [if_pos hk, findVal?_replace, if_pos hk]
  · rw [if_neg hk, findVal?_appendOne l p b q (by simpa using hk)]

theorem hasKey_setVal {α : Type _} (l : List (String × α)) (p : String) (b : α) (q : String) :
    hasKey (setVal l p b) q = (decide (q = p) || hasKey l q) := by
  rw [hasKey_eq_isSome, findVal?_setVal, hasKey_eq_isSome]
  by_cases h : q = p <;> simp [h]

theorem findVal?_delKey_self {α : Type _} (l : List (String × α)) (p : String) :
    findVal? (delKey l p) p = none := by
  induction l with
  | nil => rfl
  | cons a l ih =>
    by_cases ha : a.1 = p
    · simpa [delKey, List.filter, ha] using ih
    · simp only [delKey, List.filter] at ih ⊢
      rw [show (decide (a.1 ≠ p)) = true by simp [ha]]
      simp only [findVal?, List.find?] at ih ⊢
      rw [show (decide (a.1 = p)) = false by simp [ha]]
      exact ih

theorem findVal?_delKey_other {α : Type _} (l : List (String × α)) (p q : String) (h : q ≠ p) :
    findVal? (delKey l p) q = findVal? l q := by
  induction l with
  | nil => rfl
  | cons a l ih =>
    by_cases ha : a.1 = p
    · have haq : ¬ (a.1 = q) := fun hh => h (hh ▸ ha ▸ rfl)
      simp only [delKey, List.filter] at ih ⊢
      rw [show (decide (a.1 ≠ p)) = false by simp [ha]]
      simp only [findVal?, List.find?] at ih ⊢
      rw [show (decide (a.1 = q)) = false by simp [haq]]
      exact ih
    · simp only [delKey, List.filter] at ih ⊢
      rw [show (decide (a.1 ≠ p)) = true by simp [ha]]
      by_cases haq : a.1 = q
      · simp [findVal?, List.find?, haq]
      · simp only [findVal?, List.find?] at ih ⊢
        rw [show (decide (a.1 = q)) = false by simp [haq]]
        simpa using ih

theorem hasKey_delKey_self {α : Type _} (l : List (String × α)) (p : String) :
    hasKey (delKey l p) p = false := by
  rw [hasKey_eq_isSome, findVal?_delKey_self]; rfl

theorem hasKey_iff_mem {α : Type _} (l : List (String × α)) (p : String) :
    hasKey l p = true ↔ p ∈ l.map (·.1) := by
  simp [hasKey, List.any_eq_true, List.mem_map]

theorem existsSync_iff_mem (fs : FS) (p : String) :
    existsSync fs p = true ↔ p ∈ fs.files.map (·.1) ++ fs.dirs := by
  simp only [existsSync, Bool.or_eq_true, hasFile, hasKey_iff_mem, hasDir,
    List.any_eq_true, decide_eq_true_eq, List.mem_append]
  constructor
  · rintro (h | ⟨d, hd, rfl⟩)
    · exact Or.inl h
    · exact Or.inr hd
  · rintro (h | h)
    · exact Or.inl h
    · exact Or.inr ⟨p, h, rfl⟩

theorem readFileSync?_writeFileSync (fs : FS) (p q : String) (b : Bytes) :
    readFileSync? (writeFileSync fs p b) q = if q = p then some b else readFileSync? fs q :=
  findVal?_setVal fs.files p b q

theorem readFileSync?_writeFileSync_self (fs : FS) (p : String) (b : Bytes) :
    readFileSync? (writeFileSync fs p b) p = some b := by
  rw [readFileSync?_writeFileSync, if_pos rfl]

theorem readFileSync?_writeFileSync_other (fs : FS) (p q : String) (b : Bytes)
    (h : q ≠ p) : readFileSync? (writeFileSync fs p b) q = readFileSync? fs q := by
  rw [readFileSync?_writeFileSync, if_neg h]

theorem hasFile_writeFileSync (fs : FS) (p q : String) (b : Bytes) :
    hasFile (writeFileSync fs p b) q = (decide (q = p) || hasFile fs q) :=
  hasKey_setVal fs.files p b q

theorem dirs_writeFileSync (fs : FS) (p : String) (b : Bytes) :
    (writeFileSync fs p b).dirs = fs.dirs := rfl

theorem files_mkdirRecursive (fs : FS) (p : String) :
    (mkdirRecursive fs p).files = fs.files := by
  unfold mkdirRecursive
  generalize ancestorsStr p = l
  induction l generalizing fs with
  | nil => rfl
  | cons a l ih =>
    simp only [List.foldl_cons]
    rw [ih]
    unfold addDir
    split <;> rfl

theorem readFileSync?_mkdirRecursive (fs : FS) (p q : String) :
    readFileSync? (mkdirRecursive fs p) q = readFileSync? fs q := by
  unfold readFileSync?
  rw [files_mkdirRecursive]

theorem hasFile_mkdirRecursive (fs : FS) (p q : String) :
    hasFile (mkdirRecursive fs p) q = hasFile fs q := by
  unfold hasFile
  rw [files_mkdirRecursive]

theorem statSize?_writeFileSync_self (fs : FS) (p : String) (b : Bytes) :
    statSize? (writeFileSync fs p b) p = some b.length := by
  simp [statSize?, readFileSync?_writeFileSync_self]

/-- Shape of a successful `mergeFiles` run: the output is written at the
derived path and is the exact concatenation of the two inputs. -/
theorem mergeFiles_ok (st : St) (photoPath videoPath outputPath : String) (pb vb : Bytes)
    (hp : readFileSync? st.sys.fs photoPath = some pb)
    (hv : readFileSync? st.sys.fs videoPath = some vb) :
    mergeFiles st photoPath videoPath outputPath =
      .ok ({ st with
              sys := { st.sys with
                fs := writeFileSync
                  (mkdirRecursive st.sys.fs
                    (dirnameStr (joinStr outputPath (basenameStr photoPath))))
                  (joinStr outputPath (basenameStr photoPath)) (pb ++ vb) },
              processedFiles := st.processedFiles ++ [photoPath, videoPath] },
            joinStr outputPath (basenameStr photoPath)) := by
  have hp₀ : readFileSync? (mkdirRecursive st.sys.fs
      (dirnameStr (joinStr outputPath (basenameStr photoPath)))) photoPath = some pb := by
    rw [readFileSync?_mkdirRecursive]; exact hp
  have hv₀ : readFileSync? (mkdirRecursive st.sys.fs
      (dirnameStr (joinStr outputPath (basenameStr photoPath)))) videoPath = some vb := by
    rw [readFileSync?_mkdirRecursive]; exact hv
  simp only [mergeFiles]
  rw [hp₀, hv₀]

/--
**C1** — For every valid MediaPair, the file written by the muxer at the
derived output path contains exactly the still image's bytes followed
immediately by the video's bytes, with no separator, header, or padding
inserted, so the output file size equals `stillByteLength + videoByteLength`
exactly.  Stated for the interactive `mergeFiles` and, after the scheduled
stream copy completes, for the CLI `mergeFiles` as well.
-/
theorem c1_mux_output_is_exact_concatenation
    (st : St) (photoPath videoPath outputPath : String) (pb vb : Bytes)
    (hp : readFileSync? st.sys.fs photoPath = some pb)
    (hv : readFileSync? st.sys.fs videoPath = some vb) :
    (∃ st₁, mergeFiles st photoPath videoPath outputPath =
        .ok (st₁, joinStr outputPath (basenameStr photoPath)) ∧
      readFileSync? st₁.sys.fs (joinStr outputPath (basenameStr photoPath)) =
        some (pb ++ vb) ∧
      statSize? st₁.sys.fs (joinStr outputPath (basenameStr photoPath)) =
        some (pb.length + vb.length)) ∧
    readFileSync?
        (completePending (mergeFiles2 st.sys.fs photoPath videoPath outputPath).1)
        (joinStr outputPath (basenameStr photoPath)) = some (pb ++ vb) := by
  constructor
  · refine ⟨_, mergeFiles_ok st photoPath videoPath outputPath pb vb hp hv, ?_, ?_⟩
    · exact readFileSync?_writeFileSync_self _ _ _
    · rw [show (pb.length + vb.length) = (pb ++ vb).length by simp]
      exact statSize?_writeFileSync_self _ _ _
  · have hp₀ : readFileSync? (mkdirRecursive st.sys.fs
        (dirnameStr (joinStr outputPath (basenameStr photoPath)))) photoPath = some pb := by
      rw [readFileSync?_mkdirRecursive]; exact hp
    have hv₀ : readFileSync? (mkdirRecursive st.sys.fs
        (dirnameStr (joinStr outputPath (basenameStr photoPath)))) videoPath = some vb := by
      rw [readFileSync?_mkdirRecursive]; exact hv
    simp only [mergeFiles2, completePending, List.foldl_cons, List.foldl_nil]
    rw [hp₀, hv₀]
    simp only [Option.getD_some]
    exact readFileSync?_writeFileSync_self _ _ _

/-- Witness for C1 at a concrete pair: still `in/a.jpg` of 1 byte, video
`in/a.mov` of 2 bytes, output root `out`. -/
theorem c1_witness :
    readFileSync? stPair.sys.fs "in/a.jpg" = some [7] ∧
    readFileSync? stPair.sys.fs "in/a.mov" = some [8, 9] ∧
    ((∃ st₁, mergeFiles stPair "in/a.jpg" "in/a.mov" "out" =
        .ok (st₁, joinStr "out" (basenameStr "in/a.jpg")) ∧
      readFileSync? st₁.sys.fs (joinStr "out" (basenameStr "in/a.jpg")) =
        some ([7] ++ [8, 9]) ∧
      statSize? st₁.sys.fs (joinStr "out" (basenameStr "in/a.jpg")) =
        some ([7].length + [8, 9].length)) ∧
    readFileSync?
        (completePending (mergeFiles2 stPair.sys.fs "in/a.jpg" "in/a.mov" "out").1)
        (joinStr "out" (basenameStr "in/a.jpg")) = some ([7] ++ [8, 9])) :=
  ⟨by decide, by decide,
    c1_mux_output_is_exact_concatenation stPair "in/a.jpg" "in/a.mov" "out" [7] [8, 9]
      (by decide) (by decide)⟩

/-! ### C9 — the merge leaves the source files untouched -/

/--
Counterexample to C9 as stated: when the output root is the inputs' own
directory, the derived output path coincides with the still path, and the
merge overwrites the source still in place (`d/p.jpg` goes from `[1]` to
`[1, 2]`).
-/
theorem c9_counterexample :
    (mergeFiles stC9 "d/p.jpg" "d/p.mov" "d").map
        (fun r => readFileSync? r.1.sys.fs "d/p.jpg") = .ok (some [1, 2]) ∧
    readFileSync? stC9.sys.fs "d/p.jpg" = some [1] := by
  decide

/--
**C9 (amended)** — For every mux operation whose derived output path differs
from both input paths, the two source files are read-only during the merge:
their contents are unchanged afterwards and every path other than the output
path keeps its content; the same holds for the CLI merge once its scheduled
copy completes.
-/
theorem c9_amended_inputs_untouched (st : St) (photoPath videoPath outputPath : String)
    (pb vb : Bytes)
    (hp : readFileSync? st.sys.fs photoPath = some pb)
    (hv : readFileSync? st.sys.fs videoPath = some vb)
    (hop : joinStr outputPath (basenameStr photoPath) ≠ photoPath)
    (hov : joinStr outputPath (basenameStr photoPath) ≠ videoPath) :
    ∃ st₁, mergeFiles st photoPath videoPath outputPath =
        .ok (st₁, joinStr outputPath (basenameStr photoPath)) ∧
      readFileSync? st₁.sys.fs photoPath = some pb ∧
      readFileSync? st₁.sys.fs videoPath = some vb ∧
      (∀ q, q ≠ joinStr outputPath (basenameStr photoPath) →
        readFileSync? st₁.sys.fs q = readFileSync? st.sys.fs q) ∧
      readFileSync?
          (completePending (mergeFiles2 st.sys.fs photoPath videoPath outputPath).1)
          photoPath = some pb ∧
      readFileSync?
          (completePending (mergeFiles2 st.sys.fs photoPath videoPath outputPath).1)
          videoPath = some vb := by
  have hp₀ : readFileSync? (mkdirRecursive st.sys.fs
      (dirnameStr (joinStr outputPath (basenameStr photoPath)))) photoPath = some pb := by
    rw [readFileSync?_mkdirRecursive]; exact hp
  have hv₀ : readFileSync? (mkdirRecursive st.sys.fs
      (dirnameStr (joinStr outputPath (basenameStr photoPath)))) videoPath = some vb := by
    rw [readFileSync?_mkdirRecursive]; exact hv
  refine ⟨_, mergeFiles_ok st photoPath videoPath outputPath pb vb hp hv, ?_, ?_, ?_, ?_, ?_⟩
  · rw [readFileSync?_writeFileSync_other _ _ _ _ (fun h => hop h.symm)]
    exact hp₀
  · rw [readFileSync?_writeFileSync_other _ _ _ _ (fun h => hov h.symm)]
    exact hv₀
  · intro q hq
    rw [readFileSync?_writeFileSync_other _ _ _ _ hq, readFileSync?_mkdirRecursive]
  · simp only [mergeFiles2, completePending, List.foldl_cons, List.foldl_nil]
    rw [hp₀, hv₀]
    simp only [Option.getD_some]
    rw [readFileSync?_writeFileSync_other _ _ _ _ (fun h => hop h.symm)]
    exact hp₀
  · simp only [mergeFiles2, completePending, List.foldl_cons, List.foldl_nil]
    rw [hp₀, hv₀]
    simp only [Option.getD_some]
    rw [readFileSync?_writeFileSync_other _ _ _ _ (fun h => hov h.symm)]
    exact hv₀

/-- Witness for the amended C9 at the concrete pair of `stPair`. -/
theorem c9_witness :
    ∃ st₁, mergeFiles stPair "in/a.jpg" "in/a.mov" "out" =
        .ok (st₁, joinStr "out" (basenameStr "in/a.jpg")) ∧
      readFileSync? st₁.sys.fs "in/a.jpg" = some [7] ∧
      readFileSync? st₁.sys.fs "in/a.mov" = some [8, 9] ∧
      (∀ q, q ≠ joinStr "out" (basenameStr "in/a.jpg") →
        readFileSync? st₁.sys.fs q = readFileSync? stPair.sys.fs q) ∧
      readFileSync?
          (completePending (mergeFiles2 stPair.sys.fs "in/a.jpg" "in/a.mov" "out").1)
          "in/a.jpg" = some [7] ∧
      readFileSync?
          (completePending (mergeFiles2 stPair.sys.fs "in/a.jpg" "in/a.mov" "out").1)
          "in/a.mov" = some [8, 9] :=
  c9_amended_inputs_untouched stPair "in/a.jpg" "in/a.mov" "out" [7] [8, 9]
    (by decide) (by decide) (by decide) (by decide)

/-! ### C3 — validation runs before any bytes are touched -/

theorem endsWithStr_iff (s t : String) : endsWithStr s t = true ↔ t.data <:+ s.data := by
  simp [endsWithStr]

theorem suffix_eq_of_length {l s₁ s₂ : List Char} (h₁ : s₁ <:+ l) (h₂ : s₂ <:+ l)
    (hl : s₁.length = s₂.length) : s₁ = s₂ := by
  obtain ⟨t₁, ht₁⟩ := h₁
  obtain ⟨t₂, ht₂⟩ := h₂
  exact (List.append_inj' (ht₁.trans ht₂.symm) hl).2

theorem txt_not_video (s : String) (hs : endsWithStr s ".txt" = true) :
    endsWithStr s ".mov" = false ∧ endsWithStr s ".mp4" = false := by
  have h1 : ".txt".data <:+ s.data := (endsWithStr_iff s ".txt").mp hs
  constructor
  all_goals
    rw [Bool.eq_false_iff]
    intro hh
    have h2 := (endsWithStr_iff s _).mp hh
    have := suffix_eq_of_length h2 h1 (by decide)
    exact absurd this (by decide)

/--
**C3** — For every invocation of the mux operation, validation runs before
any bytes are read or written: when `validateMedia` fails,
`createMotionPhoto` returns with the state completely unchanged (no output
file is created); and a video path ending in `.txt` always fails validation.
-/
theorem c3_validation_runs_before_io
    (ext : Ext) (st : St) (photoPath videoPath outputPath : String) :
    (validateMedia st.sys.fs photoPath videoPath = false →
      createMotionPhoto ext st photoPath videoPath outputPath = .ok st) ∧
    (endsWithStr (lowerStr videoPath) ".txt" = true →
      validateMedia st.sys.fs photoPath videoPath = false ∧
      createMotionPhoto ext st photoPath videoPath outputPath = .ok st) := by
  have hskip : validateMedia st.sys.fs photoPath videoPath = false →
      createMotionPhoto ext st photoPath videoPath outputPath = .ok st := by
    intro h
    simp [createMotionPhoto, h]
  refine ⟨hskip, fun htxt => ?_⟩
  obtain ⟨hmov, hmp4⟩ := txt_not_video _ htxt
  have hval : validateMedia st.sys.fs photoPath videoPath = false := by
    simp [validateMedia, hmov, hmp4]
  exact ⟨hval, hskip hval⟩

/-- Witness for C3: a `.txt` video path fails validation and the state is
returned untouched. -/
theorem c3_witness :
    endsWithStr (lowerStr "in/b.txt") ".txt" = true ∧
    validateMedia stPair.sys.fs "in/a.jpg" "in/b.txt" = false ∧
    createMotionPhoto extOk stPair "in/a.jpg" "in/b.txt" "out" = .ok stPair :=
  ⟨by decide,
    (c3_validation_runs_before_io extOk stPair "in/a.jpg" "in/b.txt" "out").2 (by decide)⟩

/-! ### C6 — sidecar deletion after a successful metadata write -/

/--
Counterexample to C6 as stated: the CLI implementation's `addXmpMetadata`
never deletes the `_original` backup sidecar — after its successful write
the sidecar is present on disk.
-/
theorem c6_counterexample :
    (addXmpMetadata2 extOk sysC6 "out/m.jpg" 1).map
        (fun s => hasFile s.fs "out/m.jpg_original") = .ok true := by
  decide

/--
**C6 (amended)** — In the interactive implementation, after every successful
metadata write the annotator deletes the `_original` backup sidecar and a
deletion failure is caught and logged, never raised: whenever the external
write succeeds, `addXmpMetadata` returns successfully and the sidecar is
absent from the resulting filesystem.  (The CLI implementation's annotator,
by contrast, leaves the sidecar in place — `c6_counterexample`.)
-/
theorem c6_amended_sidecar_deleted (ext : Ext) (sys : Sys) (mergedFile : String)
    (offset : Int) (hok : ext.exifOk mergedFile = true) :
    ∃ sys', addXmpMetadata ext sys mergedFile offset = .ok sys' ∧
      hasFile sys'.fs (mergedFile ++ "_original") = false := by
  unfold addXmpMetadata exiftoolWrite?
  rw [hok]
  simp only [if_true]
  have hside : hasFile (writeFileSync sys.fs (mergedFile ++ "_original")
      ((readFileSync? sys.fs mergedFile).getD []))
      (mergedFile ++ "_original") = true := by
    rw [hasFile_writeFileSync]
    simp
  unfold unlinkSync?
  rw [hside]
  simp only [if_true]
  exact ⟨_, rfl, hasKey_delKey_self _ _⟩

/-- Witness for the amended C6 at the concrete artifact of `sysC6`. -/
theorem c6_witness :
    extOk.exifOk "out/m.jpg" = true ∧
    ∃ sys', addXmpMetadata extOk sysC6 "out/m.jpg" 1 = .ok sys' ∧
      hasFile sys'.fs ("out/m.jpg" ++ "_original") = false :=
  ⟨rfl, c6_amended_sidecar_deleted extOk sysC6 "out/m.jpg" 1 rfl⟩

/-! ### C7 — annotation is idempotent on the four metadata keys -/

theorem addXmpMetadata_ok_getXmp (ext : Ext) (sys : Sys) (mergedFile : String)
    (offset : Int) (sys' : Sys)
    (h : addXmpMetadata ext sys mergedFile offset = .ok sys') :
    getXmp sys' mergedFile = metaSetAll (getXmp sys mergedFile) (microVideoTags offset) := by
  unfold addXmpMetadata exiftoolWrite? at h
  cases hok : ext.exifOk mergedFile with
  | false => rw [hok] at h; simp at h
  | true =>
    rw [hok] at h
    simp only [if_true] at h
    split at h
    all_goals
      cases h
      unfold getXmp
      simp only
      rw [findVal?_setVal]
      simp

theorem metaSetAll_microVideo_lookups (m : Meta) (offset : Int) :
    findVal? (metaSetAll m (microVideoTags offset)) "XMP:MicroVideo" = some 1 ∧
    findVal? (metaSetAll m (microVideoTags offset)) "XMP:MicroVideoVersion" = some 1 ∧
    findVal? (metaSetAll m (microVideoTags offset)) "XMP:MicroVideoOffset" = some offset ∧
    findVal? (metaSetAll m (microVideoTags offset))
      "XMP:MicroVideoPresentationTimestampUs" = some 1500000 := by
  simp [metaSetAll, microVideoTags, findVal?_setVal]

theorem addXmpMetadata2_ok_getXmp (ext : Ext) (sys : Sys) (mergedFile : String)
    (offset : Int) (sys' : Sys)
    (h : addXmpMetadata2 ext sys mergedFile offset = .ok sys') :
    getXmp sys' mergedFile =
      metaSetAll (getXmp sys mergedFile)
        (metaSetAll (getXmp sys mergedFile) (gCameraTags offset)) := by
  unfold addXmpMetadata2 exiftoolWrite? at h
  cases hok : ext.exifOk mergedFile with
  | false => rw [hok] at h; simp at h
  | true =>
    rw [hok] at h
    simp only [if_true] at h
    cases h
    unfold getXmp
    simp only
    rw [findVal?_setVal]
    simp

theorem setVal_all_entries {α : Type _} (m : List (String × α)) (k : String) (v : α) :
    ∀ e ∈ setVal m k v, e.1 = k → e.2 = v := by
  intro e he hek
  unfold setVal at he
  by_cases hk : hasKey m k
  · rw [if_pos hk, List.mem_map] at he
    obtain ⟨a, _, rfl⟩ := he
    by_cases ha : a.1 = k
    · rw [if_pos ha]
    · rw [if_neg ha] at hek ⊢
      exact absurd hek ha
  · rw [if_neg hk, List.mem_append] at he
    rcases he with he | he
    · exfalso
      apply hk
      unfold hasKey
      rw [List.any_eq_true]
      exact ⟨e, he, by simp [hek]⟩
    · rw [List.mem_singleton] at he
      rw [he]

theorem setVal_all_entries_other {α : Type _} (m : List (String × α)) (k k' : String)
    (v : α) (v' : α) (hne : k ≠ k')
    (h : ∀ e ∈ m, e.1 = k → e.2 = v) :
    ∀ e ∈ setVal m k' v', e.1 = k → e.2 = v := by
  intro e he hek
  unfold setVal at he
  by_cases hk : hasKey m k'
  · rw [if_pos hk, List.mem_map] at he
    obtain ⟨a, ha, rfl⟩ := he
    by_cases ha1 : a.1 = k'
    · rw [if_pos ha1] at hek
      exact absurd hek.symm hne
    · rw [if_neg ha1] at hek ⊢
      exact h a ha hek
  · rw [if_neg hk, List.mem_append] at he
    rcases he with he | he
    · exact h e he hek
    · rw [List.mem_singleton] at he
      rw [he] at hek
      exact absurd hek.symm hne

theorem metaSetAll_other_keys (rest : Meta) :
    ∀ (m : Meta) (k : String), (∀ e ∈ rest, e.1 ≠ k) →
      findVal? (metaSetAll m rest) k = findVal? m k := by
  induction rest with
  | nil => intro m k _; rfl
  | cons t rest ih =>
    intro m k h
    show findVal? (metaSetAll (setVal m t.1 t.2) rest) k = findVal? m k
    rw [ih (setVal m t.1 t.2) k (fun e he => h e (List.mem_cons_of_mem t he))]
    rw [findVal?_setVal]
    rw [if_neg (fun hkt => h t (List.mem_cons_self t rest) hkt.symm)]

theorem metaSetAll_const_key (tags : Meta) :
    ∀ (m : Meta) (k : String) (v : Int),
      hasKey tags k = true → (∀ e ∈ tags, e.1 = k → e.2 = v) →
      findVal? (metaSetAll m tags) k = some v := by
  induction tags with
  | nil => intro m k v hk _; simp [hasKey] at hk
  | cons t rest ih =>
    intro m k v hk hall
    show findVal? (metaSetAll (setVal m t.1 t.2) rest) k = some v
    by_cases hkr : hasKey rest k = true
    · exact ih (setVal m t.1 t.2) k v hkr (fun e he => hall e (List.mem_cons_of_mem t he))
    · have ht1 : t.1 = k := by
        simp only [hasKey, List.any_cons, Bool.or_eq_true, decide_eq_true_eq] at hk
        rcases hk with ht1 | h'
        · exact ht1
        · exact absurd h' hkr
      have hrest : ∀ e ∈ rest, e.1 ≠ k := by
        intro e he hek
        apply hkr
        unfold hasKey
        rw [List.any_eq_true]
        exact ⟨e, he, by simp [hek]⟩
      rw [metaSetAll_other_keys rest (setVal m t.1 t.2) k hrest]
      rw [findVal?_setVal, ht1, if_pos rfl, hall t (List.mem_cons_self t rest) ht1]

theorem metaSetAll_gCamera_lookups (m : Meta) (offset : Int) :
    findVal? (metaSetAll m (gCameraTags offset)) "Xmp.GCamera.MicroVideo" = some 1 ∧
    findVal? (metaSetAll m (gCameraTags offset)) "Xmp.GCamera.MicroVideoVersion" = some 1 ∧
    findVal? (metaSetAll m (gCameraTags offset)) "Xmp.GCamera.MicroVideoOffset" = some offset ∧
    findVal? (metaSetAll m (gCameraTags offset))
      "Xmp.GCamera.MicroVideoPresentationTimestampUs" = some 1500000 := by
  simp [metaSetAll, gCameraTags, findVal?_setVal]

theorem gCamera_rmw_lookup (m : Meta) (offset : Int) :
    findVal? (metaSetAll m (metaSetAll m (gCameraTags offset)))
      "Xmp.GCamera.MicroVideo" = some 1 ∧
    findVal? (metaSetAll m (metaSetAll m (gCameraTags offset)))
      "Xmp.GCamera.MicroVideoVersion" = some 1 ∧
    findVal? (metaSetAll m (metaSetAll m (gCameraTags offset)))
      "Xmp.GCamera.MicroVideoOffset" = some offset ∧
    findVal? (metaSetAll m (metaSetAll m (gCameraTags offset)))
      "Xmp.GCamera.MicroVideoPresentationTimestampUs" = some 1500000 := by
  obtain ⟨l₁, l₂, l₃, l₄⟩ := metaSetAll_gCamera_lookups m offset
  have hk₁ : hasKey (metaSetAll m (gCameraTags offset)) "Xmp.GCamera.MicroVideo" = true := by
    rw [hasKey_eq_isSome, l₁]; rfl
  have hk₂ : hasKey (metaSetAll m (gCameraTags offset))
      "Xmp.GCamera.MicroVideoVersion" = true := by
    rw [hasKey_eq_isSome, l₂]; rfl
  have hk₃ : hasKey (metaSetAll m (gCameraTags offset))
      "Xmp.GCamera.MicroVideoOffset" = true := by
    rw [hasKey_eq_isSome, l₃]; rfl
  have hk₄ : hasKey (metaSetAll m (gCameraTags offset))
      "Xmp.GCamera.MicroVideoPresentationTimestampUs" = true := by
    rw [hasKey_eq_isSome, l₄]; rfl
  have hunfold : metaSetAll m (gCameraTags offset) =
      setVal (setVal (setVal (setVal m "Xmp.GCamera.MicroVideo" 1)
          "Xmp.GCamera.MicroVideoVersion" 1)
        "Xmp.GCamera.MicroVideoOffset" offset)
        "Xmp.GCamera.MicroVideoPresentationTimestampUs" 1500000 := rfl
  have e₁ : ∀ e ∈ metaSetAll m (gCameraTags offset),
      e.1 = "Xmp.GCamera.MicroVideo" → e.2 = 1 := by
    rw [hunfold]
    exact setVal_all_entries_other _ _ _ _ _ (by decide)
      (setVal_all_entries_other _ _ _ _ _ (by decide)
        (setVal_all_entries_other _ _ _ _ _ (by decide)
          (setVal_all_entries _ _ _)))
  have e₂ : ∀ e ∈ metaSetAll m (gCameraTags offset),
      e.1 = "Xmp.GCamera.MicroVideoVersion" → e.2 = 1 := by
    rw [hunfold]
    exact setVal_all_entries_other _ _ _ _ _ (by decide)
      (setVal_all_entries_other _ _ _ _ _ (by decide)
        (setVal_all_entries _ _ _))
  have e₃ : ∀ e ∈ metaSetAll m (gCameraTags offset),
      e.1 = "Xmp.GCamera.MicroVideoOffset" → e.2 = offset := by
    rw [hunfold]
    exact setVal_all_entries_other _ _ _ _ _ (by decide)
      (setVal_all_entries _ _ _)
  have e₄ : ∀ e ∈ metaSetAll m (gCameraTags offset),
      e.1 = "Xmp.GCamera.MicroVideoPresentationTimestampUs" → e.2 = 1500000 := by
    rw [hunfold]
    exact setVal_all_entries _ _ _
  exact ⟨metaSetAll_const_key _ m _ 1 hk₁ e₁, metaSetAll_const_key _ m _ 1 hk₂ e₂,
    metaSetAll_const_key _ m _ offset hk₃ e₃, metaSetAll_const_key _ m _ 1500000 hk₄ e₄⟩

/--
**C7** — Running the annotation step twice on the same artifact with the same
`stillByteLength` produces the same final embedded-metadata state as running
it once, in both implementations: after either run the interactive annotator
leaves each of the four `XMP:MicroVideo*` keys with the same value, and the
CLI annotator leaves each of the four `Xmp.GCamera.MicroVideo*` keys with the
same value.
-/
theorem c7_annotation_idempotent (ext : Ext) (merged : String) (offset : Int) :
    (∀ sys sys₁ sys₂ : Sys,
      addXmpMetadata ext sys merged offset = .ok sys₁ →
      addXmpMetadata ext sys₁ merged offset = .ok sys₂ →
      ∀ k ∈ microVideoKeys,
        findVal? (getXmp sys₂ merged) k = findVal? (getXmp sys₁ merged) k) ∧
    (∀ sys sys₁ sys₂ : Sys,
      addXmpMetadata2 ext sys merged offset = .ok sys₁ →
      addXmpMetadata2 ext sys₁ merged offset = .ok sys₂ →
      ∀ k ∈ gCameraKeys,
        findVal? (getXmp sys₂ merged) k = findVal? (getXmp sys₁ merged) k) := by
  constructor
  · intro sys sys₁ sys₂ h₁ h₂
    have e₁ := addXmpMetadata_ok_getXmp ext sys merged offset sys₁ h₁
    have e₂ := addXmpMetadata_ok_getXmp ext sys₁ merged offset sys₂ h₂
    rw [e₂, e₁]
    obtain ⟨a₁, b₁, c₁, d₁⟩ := metaSetAll_microVideo_lookups (getXmp sys merged) offset
    obtain ⟨a₂, b₂, c₂, d₂⟩ :=
      metaSetAll_microVideo_lookups (metaSetAll (getXmp sys merged) (microVideoTags offset))
        offset
    intro k hk
    simp only [microVideoKeys, List.mem_cons, List.mem_singleton] at hk
    rcases hk with rfl | rfl | rfl | rfl | hk
    · rw [a₁, a₂]
    · rw [b₁, b₂]
    · rw [c₁, c₂]
    · rw [d₁, d₂]
    · simp at hk
  · intro sys sys₁ sys₂ h₁ h₂
    have e₁ := addXmpMetadata2_ok_getXmp ext sys merged offset sys₁ h₁
    have e₂ := addXmpMetadata2_ok_getXmp ext sys₁ merged offset sys₂ h₂
    obtain ⟨a₁, b₁, c₁, d₁⟩ := gCamera_rmw_lookup (getXmp sys merged) offset
    obtain ⟨a₂, b₂, c₂, d₂⟩ := gCamera_rmw_lookup (getXmp sys₁ merged) offset
    intro k hk
    simp only [gCameraKeys, List.mem_cons, List.mem_singleton] at hk
    rcases hk with rfl | rfl | rfl | rfl | hk
    · rw [e₂, a₂, e₁, a₁]
    · rw [e₂, b₂, e₁, b₁]
    · rw [e₂, c₂, e₁, c₁]
    · rw [e₂, d₂, e₁, d₁]
    · simp at hk

/-- Witness for C7: annotating the concrete artifact of `sysC6` twice with
each of the two implementations. -/
theorem c7_witness :
    (addXmpMetadata extOk sysC6 "out/m.jpg" 5 = .ok c7s1 ∧
     addXmpMetadata extOk c7s1 "out/m.jpg" 5 = .ok c7s2 ∧
     ∀ k ∈ microVideoKeys,
       findVal? (getXmp c7s2 "out/m.jpg") k = findVal? (getXmp c7s1 "out/m.jpg") k) ∧
    (addXmpMetadata2 extOk sysC6 "out/m.jpg" 5 = .ok c7t1 ∧
     addXmpMetadata2 extOk c7t1 "out/m.jpg" 5 = .ok c7t2 ∧
     ∀ k ∈ gCameraKeys,
       findVal? (getXmp c7t2 "out/m.jpg") k = findVal? (getXmp c7t1 "out/m.jpg") k) :=
  ⟨⟨by decide, by decide,
    (c7_annotation_idempotent extOk "out/m.jpg" 5).1 sysC6 c7s1 c7s2 (by decide) (by decide)⟩,
   ⟨by decide, by decide,
    (c7_annotation_idempotent extOk "out/m.jpg" 5).2 sysC6 c7t1 c7t2 (by decide) (by decide)⟩⟩

/-! ### C2 — where the sizes for the offset are measured -/

/--
**C2** — In the CLI implementation, `fs.statSync(merged)` runs in the same
synchronous turn in which `mergeFiles` returns, before the event loop has
performed any of the scheduled stream copy: on a fresh run the output file
does not exist yet, `statSync` throws, and no offset is ever computed from
the completed artifact — contradicting the inline comment
`merged size - photo_only_size = offset` and the spec.  Evaluated at the
failing input: photo `in/a.jpg` (3 bytes), video `in/a.mov` (5 bytes),
output root `out`; the merge's own pending copy would have produced the
8-byte artifact.
-/
theorem c2_cli_convert_stats_unwritten_artifact :
    convert2 extOk sysC2 "in/a.jpg" "in/a.mov" "out" = .error (.enoent "out/a.jpg") ∧
    hasFile (mergeFiles2 sysC2.fs "in/a.jpg" "in/a.mov" "out").1.fs "out/a.jpg" = false ∧
    readFileSync?
        (completePending (mergeFiles2 sysC2.fs "in/a.jpg" "in/a.mov" "out").1)
        "out/a.jpg" = some [1, 1, 1, 2, 2, 2, 2, 2] := by
  decide

/-! ### C8 — fatal directory validation before any processing -/

/--
**C8** — Invoking the pipeline on a path that does not exist fails fatally
(`checkDirectory` hits its not-found branch, the spec's `NotFoundError`) and
on a path that exists but is not a directory fails fatally (its
not-a-directory branch, the spec's `InvalidInputError`); in both cases
`processDirectory` exits via `process.exit(1)` with the state untouched, so
no partial directory processing is attempted.
-/
theorem c8_directory_validation_is_fatal (ext : Ext) (flags : Flags) (st : St)
    (inputDir outputDir : String) (hne : inputDir ≠ "") :
    (existsSync st.sys.fs inputDir = false →
      checkDirectory st.sys.fs inputDir = .notFound ∧
      processDirectory ext flags st inputDir outputDir = .error (.exitOne st)) ∧
    (existsSync st.sys.fs inputDir = true → isDirectory st.sys.fs inputDir = false →
      checkDirectory st.sys.fs inputDir = .notDirectory ∧
      processDirectory ext flags st inputDir outputDir = .error (.exitOne st)) := by
  constructor
  · intro hex
    have hc : checkDirectory st.sys.fs inputDir = .notFound := by
      simp [checkDirectory, hne, hex]
    refine ⟨hc, ?_⟩
    simp [processDirectory, validateDirectory, hc]
  · intro hex hdir
    have hc : checkDirectory st.sys.fs inputDir = .notDirectory := by
      simp [checkDirectory, hne, hex, hdir]
    refine ⟨hc, ?_⟩
    simp [processDirectory, validateDirectory, hc]

/-- Witness for C8: a missing directory `nope` and a file path `in/a.jpg`
used as the directory argument. -/
theorem c8_witness :
    (checkDirectory stPair.sys.fs "nope" = .notFound ∧
      processDirectory extOk flags0 stPair "nope" "out" = .error (.exitOne stPair)) ∧
    (checkDirectory stPair.sys.fs "in/a.jpg" = .notDirectory ∧
      processDirectory extOk flags0 stPair "in/a.jpg" "out" = .error (.exitOne stPair)) :=
  ⟨(c8_directory_validation_is_fatal extOk flags0 stPair "nope" "out"
      (by decide)).1 (by decide),
   (c8_directory_validation_is_fatal extOk flags0 stPair "in/a.jpg" "out"
      (by decide)).2 (by decide) (by decide)⟩

/-! ### C4 — pair resolution order -/

theorem matchingVideoGo_eq (videoDir base : String) (l : List String) :
    matchingVideoGo videoDir base l = (l.find? (matchCand base)).map (joinStr videoDir) := by
  induction l with
  | nil => rfl
  | cons f rest ih =>
    cases hmc : matchCand base f <;> simp [matchingVideoGo, List.find?, hmc, ih]

theorem find?_first {α : Type _} (p : α → Bool) (l₁ l₂ : List α) (f : α)
    (hf : p f = true) (hb : ∀ g ∈ l₁, p g = false) :
    (l₁ ++ f :: l₂).find? p = some f := by
  induction l₁ with
  | nil => simp [List.find?, hf]
  | cons a l ih =>
    have ha := hb a (List.mem_cons_self a l)
    simp only [List.cons_append, List.find?, ha]
    exact ih (fun g hg => hb g (List.mem_cons_of_mem a hg))

/--
**C4 (amended)** — In the interactive implementation the resolver selects, for
a still with at least one candidate in the directory listing (an entry
starting with the still's stem and ending case-insensitively in `.mov` or
`.mp4`), exactly one partner: the first candidate in directory-listing
order.  (The CLI implementation instead probes only the exact names
`stem.mov`, `stem.mp4`, `stem.MOV`, `stem.MP4` in that fixed order and
misses prefix-named candidates — `c4_counterexample`.)
-/
theorem c4_amended_first_listing_match (fs : FS) (photoPath videoDir : String) :
    (∀ l₁ f l₂, readdirSync fs videoDir = l₁ ++ f :: l₂ →
      matchCand (parseNameStr photoPath) f = true →
      (∀ g ∈ l₁, matchCand (parseNameStr photoPath) g = false) →
      matchingVideo fs photoPath videoDir = some (joinStr videoDir f)) ∧
    ((∃ g ∈ readdirSync fs videoDir, matchCand (parseNameStr photoPath) g = true) →
      ∃ f, matchingVideo fs photoPath videoDir = some (joinStr videoDir f) ∧
        matchCand (parseNameStr photoPath) f = true ∧ f ∈ readdirSync fs videoDir) := by
  constructor
  · intro l₁ f l₂ hl hf hb
    rw [matchingVideo, matchingVideoGo_eq, hl, find?_first _ l₁ l₂ f hf hb]
    rfl
  · rintro ⟨g, hg, hcand⟩
    have hsome : ((readdirSync fs videoDir).find? (matchCand (parseNameStr photoPath))).isSome := by
      rw [List.find?_isSome]
      exact ⟨g, hg, hcand⟩
    rcases hfind : (readdirSync fs videoDir).find? (matchCand (parseNameStr photoPath)) with
      _ | f
    · rw [hfind] at hsome; simp at hsome
    · refine ⟨f, ?_, List.find?_some hfind, List.mem_of_find?_eq_some hfind⟩
      rw [matchingVideo, matchingVideoGo_eq, hfind]
      rfl

/--
Counterexample to C4 as stated: `d/A_x.mov` is a candidate for `d/A.jpg`
under the claim's matching rule, yet the CLI resolver selects no partner at
all.
-/
theorem c4_counterexample :
    "A_x.mov" ∈ readdirSync fsC4 "d" ∧
    matchCand (parseNameStr "d/A.jpg") "A_x.mov" = true ∧
    matchingVideo2 fsC4 "d/A.jpg" = "" := by
  decide

/-- Witness for the amended C4: with candidates `B.mp4` before `B.mov` in
listing order, the first one is selected. -/
theorem c4_witness :
    readdirSync fsC4w "d" = ["B.jpg"] ++ "B.mp4" :: ["B.mov"] ∧
    matchCand (parseNameStr "d/B.jpg") "B.mp4" = true ∧
    matchingVideo fsC4w "d/B.jpg" "d" = some (joinStr "d" "B.mp4") :=
  ⟨by decide, by decide,
    (c4_amended_first_listing_match fsC4w "d/B.jpg" "d").1 ["B.jpg"] "B.mp4" ["B.mov"]
      (by decide) (by decide) (by decide)⟩

/-! ### C10 — `uniquePath` always returns an unused name -/

theorem takeWhile_all_ne_slash {l : List Char} (h : ∀ c ∈ l, c ≠ '/') :
    l.takeWhile (fun c => decide (c ≠ '/')) = l := by
  induction l with
  | nil => rfl
  | cons a l ih =>
    rw [List.takeWhile_cons]
    rw [show (decide (a ≠ '/')) = true by simp [h a (List.mem_cons_self a l)]]
    rw [ih (fun c hc => h c (List.mem_cons_of_mem a hc))]
    simp

theorem basenameStr_of_no_slash (p : String) (h : '/' ∉ p.data) : basenameStr p = p := by
  apply stringDataInj
  simp only [basenameStr]
  rw [takeWhile_all_ne_slash (fun c hc hcs => h (hcs ▸ List.mem_reverse.mp hc))]
  exact List.reverse_reverse _

theorem extSplitData_fst_subset (l : List Char) (c : Char)
    (h : c ∈ (extSplitData l).1) : c ∈ l := by
  unfold extSplitData at h
  dsimp only at h
  split at h
  · exact h
  · split at h
    · exact h
    · exact List.mem_of_mem_take h

theorem extSplitData_snd_subset (l : List Char) (c : Char)
    (h : c ∈ (extSplitData l).2) : c ∈ l := by
  unfold extSplitData at h
  dsimp only at h
  split at h
  · simp at h
  · split at h
    · simp at h
    · exact List.mem_of_mem_drop h

theorem parseNameStr_no_slash (p : String) : '/' ∉ (parseNameStr p).data := fun h =>
  basenameStr_no_slash p (extSplitData_fst_subset _ _ h)

theorem parseExtStr_no_slash (p : String) : '/' ∉ (parseExtStr p).data := fun h =>
  basenameStr_no_slash p (extSplitData_snd_subset _ _ h)

theorem parseName_append_parseExt (p : String) :
    (parseNameStr p).data ++ (parseExtStr p).data = (basenameStr p).data :=
  extSplitData_append (basenameStr p).data

/-- A numbered candidate `name(k).ext` is never the original filename. -/
theorem uniqueCandidate_zero_ne_succ (filename : String) (k : Nat) :
    filename ≠
      parseNameStr filename ++ "(" ++ decStr (k + 1) ++ ")" ++ parseExtStr filename := by
  intro heq
  by_cases hs : '/' ∈ filename.data
  · have : '/' ∈ (parseNameStr filename ++ "(" ++ decStr (k + 1) ++ ")" ++
        parseExtStr filename).data := heq ▸ hs
    simp only [String.data_append] at this
    rcases List.mem_append.mp this with h | h
    · rcases List.mem_append.mp h with h | h
      · rcases List.mem_append.mp h with h | h
        · rcases List.mem_append.mp h with h | h
          · exact parseNameStr_no_slash filename h
          · simp at h
        · exact decCharsGo_no_slash (k + 2) (k + 1) h
      · simp at h
    · exact parseExtStr_no_slash filename h
  · have hbase : basenameStr filename = filename := basenameStr_of_no_slash filename hs
    have hlen := congrArg (fun s => s.data.length) heq
    simp only [String.data_append, List.length_append] at hlen
    have hsplit : (parseNameStr filename).data.length + (parseExtStr filename).data.length =
        filename.data.length := by
      rw [← List.length_append, parseName_append_parseExt, hbase]
    have hdec : 0 < (decStr (k + 1)).data.length := by
      rcases hd : (decStr (k + 1)).data with _ | ⟨c, l⟩
      · exact absurd hd (decChars_ne_nil (k + 1))
      · simp
    have h1 : ("(" : String).data.length = 1 := by decide
    have h2 : (")" : String).data.length = 1 := by decide
    omega

theorem uniqueCandidate_inj (filename : String) :
    Function.Injective
      (uniqueCandidate (parseNameStr filename) (parseExtStr filename) filename) := by
  intro j k h
  match j, k with
  | 0, 0 => rfl
  | 0, k + 1 => exact absurd h (uniqueCandidate_zero_ne_succ filename k)
  | j + 1, 0 => exact absurd h.symm (uniqueCandidate_zero_ne_succ filename j)
  | j + 1, k + 1 =>
    have hd := congrArg String.data h
    simp only [uniqueCandidate, String.data_append, List.append_assoc] at hd
    have hd₁ := List.append_cancel_left hd
    have hd₂ := List.append_cancel_left hd₁
    have hd₃ : (decStr (j + 1)).data = (decStr (k + 1)).data := by
      rw [← List.append_assoc, ← List.append_assoc] at hd₂
      have := List.append_cancel_right hd₂
      exact List.append_cancel_right this
    have : decChars (j + 1) = decChars (k + 1) := hd₃
    have := decChars_injective this
    omega

theorem exists_free_probe (L : List String) (g : Nat → String)
    (hg : Function.Injective g) : ∃ k, k ≤ L.length ∧ g k ∉ L := by
  by_contra hcon
  push_neg at hcon
  have hall : ∀ k ∈ List.range (L.length + 1), g k ∈ L := by
    intro k hk
    rw [List.mem_range] at hk
    exact hcon k (by omega)
  have hnd : ((List.range (L.length + 1)).map g).Nodup :=
    (List.nodup_range (L.length + 1)).map hg
  have hsub : ((List.range (L.length + 1)).map g).toFinset ⊆ L.toFinset := by
    intro x hx
    rw [List.mem_toFinset] at hx ⊢
    rw [List.mem_map] at hx
    obtain ⟨k, hk, rfl⟩ := hx
    exact hall k hk
  have h1 : ((List.range (L.length + 1)).map g).toFinset.card = L.length + 1 := by
    rw [List.toFinset_card_of_nodup hnd, List.length_map, List.length_range]
  have h2 := Finset.card_le_card hsub
  have h3 := List.toFinset_card_le L
  omega

/-- If some candidate within the remaining fuel is unused, the loop of
`uniquePath` returns an unused path. -/
theorem uniquePathGo_spec (fs : FS) (destination name ext filename : String) :
    ∀ fuel i,
      (∃ k, k < fuel ∧
        existsSync fs
          (joinStr destination (uniqueCandidate name ext filename (i + k))) = false) →
      existsSync fs (uniquePathGo fs destination name ext
        (uniqueCandidate name ext filename i) (i + 1) fuel) = false := by
  intro fuel
  induction fuel with
  | zero =>
    rintro i ⟨k, hk, _⟩
    omega
  | succ fuel ih =>
    rintro i ⟨k, hk, hfree⟩
    rw [uniquePathGo]
    cases hex : existsSync fs (joinStr destination (uniqueCandidate name ext filename i)) with
    | false => simp [hex]
    | true =>
      simp only [hex, if_true]
      match k, hk with
      | 0, _ =>
        rw [Nat.add_zero, hex] at hfree
        cases hfree
      | k + 1, hk =>
        exact ih (i + 1) ⟨k, by omega,
          by rw [show i + 1 + k = i + (k + 1) from by omega]; exact hfree⟩

/--
**C10** — `uniquePath` always returns a destination path that does not
already exist at call time (appending a `(counter)` suffix to the stem until
a free name is found), so renaming a file onto the returned path never
overwrites any existing file.
-/
theorem c10_uniquePath_fresh (fs : FS) (destination filename : String) :
    existsSync fs (uniquePath fs destination filename) = false ∧
    (∀ src fs' q, renameSync? fs src (uniquePath fs destination filename) = some fs' →
      existsSync fs q = true → q ≠ src →
      readFileSync? fs' q = readFileSync? fs q) := by
  have hfree : existsSync fs (uniquePath fs destination filename) = false := by
    obtain ⟨k, hk, hfreek⟩ := exists_free_probe (fs.files.map (·.1) ++ fs.dirs)
      (fun k => joinStr destination
        (uniqueCandidate (parseNameStr filename) (parseExtStr filename) filename k))
      (fun a b hab => uniqueCandidate_inj filename (joinStr_right_inj destination hab))
    have hlen : (fs.files.map (·.1) ++ fs.dirs).length = fs.files.length + fs.dirs.length := by
      simp
    have hfree0 : existsSync fs (joinStr destination
        (uniqueCandidate (parseNameStr filename) (parseExtStr filename) filename (0 + k))) =
        false := by
      rw [Nat.zero_add, Bool.eq_false_iff]
      intro hex
      exact hfreek ((existsSync_iff_mem fs _).mp hex)
    exact uniquePathGo_spec fs destination (parseNameStr filename) (parseExtStr filename)
      filename (fs.files.length + fs.dirs.length + 1) 0 ⟨k, by omega, hfree0⟩
  refine ⟨hfree, ?_⟩
  intro src fs' q hren hq hqs
  unfold renameSync? at hren
  rcases hread : readFileSync? fs src with _ | b
  · rw [hread] at hren
    cases hren
  · rw [hread] at hren
    cases hren
    have hqt : q ≠ uniquePath fs destination filename := by
      intro hqq
      rw [hqq] at hq
      rw [hfree] at hq
      cases hq
    rw [readFileSync?_writeFileSync_other _ _ _ _ hqt]
    exact findVal?_delKey_other fs.files src q hqs

/-! ### C5 — error propagation in the batch pipeline -/

theorem hasKey_delKey_other {α : Type _} (l : List (String × α)) (p q : String)
    (h : q ≠ p) : hasKey (delKey l p) q = hasKey l q := by
  rw [hasKey_eq_isSome, findVal?_delKey_other l p q h, hasKey_eq_isSome]

theorem lowerStr_data_append (a b : String) :
    (lowerStr (a ++ b)).data = (lowerStr a).data ++ (lowerStr b).data := by
  simp [lowerStr, String.data_append]

/-- A lowercased suffix of a name is still a suffix after prepending a
directory. -/
theorem endsWith_lower_joinStr (d g s : String)
    (h : endsWithStr (lowerStr g) s = true) :
    endsWithStr (lowerStr (joinStr d g)) s = true := by
  unfold joinStr
  split
  · exact h
  · rw [endsWithStr_iff] at h ⊢
    refine h.trans ?_
    rw [lowerStr_data_append]
    exact List.suffix_append _ _

theorem imageExtFile_joinStr (d g : String) (h : imageExtFile g = true) :
    imageExtFile (joinStr d g) = true := by
  unfold imageExtFile at h ⊢
  rcases Bool.or_eq_true_iff.mp h with h' | h'
  · rcases Bool.or_eq_true_iff.mp h' with h'' | h''
    · rw [endsWith_lower_joinStr d g _ h'']
      simp
    · rw [endsWith_lower_joinStr d g _ h'']
      simp
  · rw [endsWith_lower_joinStr d g _ h']
    simp

/-- A name with an image extension is never an `_original` sidecar. -/
theorem image_ne_sidecar (q m : String) (h : imageExtFile q = true) :
    q ≠ m ++ "_original" := by
  intro heq
  subst heq
  have hsuf : "_original".data <:+ (lowerStr (m ++ "_original")).data := by
    rw [lowerStr_data_append]
    rw [show (lowerStr "_original").data = "_original".data from by decide]
    exact List.suffix_append _ _
  have h4 : ("inal".data : List Char) <:+ (lowerStr (m ++ "_original")).data :=
    List.IsSuffix.trans (by decide) hsuf
  have h5 : ("ginal".data : List Char) <:+ (lowerStr (m ++ "_original")).data :=
    List.IsSuffix.trans (by decide) hsuf
  unfold imageExtFile at h
  rcases Bool.or_eq_true_iff.mp h with h' | h'
  · rcases Bool.or_eq_true_iff.mp h' with h'' | h''
    · have := suffix_eq_of_length ((endsWithStr_iff _ _).mp h'') h5 (by decide)
      exact absurd this (by decide)
    · have := suffix_eq_of_length ((endsWithStr_iff _ _).mp h'') h4 (by decide)
      exact absurd this (by decide)
  · have := suffix_eq_of_length ((endsWithStr_iff _ _).mp h') h5 (by decide)
    exact absurd this (by decide)

theorem imageExtFile_jpg_append (x : String) : imageExtFile (x ++ ".jpg") = true := by
  unfold imageExtFile
  have : endsWithStr (lowerStr (x ++ ".jpg")) ".jpg" = true := by
    rw [endsWithStr_iff, lowerStr_data_append,
      show (lowerStr ".jpg").data = ".jpg".data from by decide]
    exact List.suffix_append _ _
  rw [this]
  simp

theorem slash_mem_joinStr (d b : String) (hd : d ≠ "") : '/' ∈ (joinStr d b).data := by
  unfold joinStr
  rw [if_neg hd]
  simp [String.data_append]

theorem dropWhile_head_false {q : Char → Bool} :
    ∀ (l : List Char) (b : Char) (t : List Char), l.dropWhile q = b :: t → q b = false := by
  intro l
  induction l with
  | nil => intro b t h; simp at h
  | cons a l ih =>
    intro b t h
    rw [List.dropWhile_cons] at h
    split at h
    · exact ih b t h
    · next hq => cases h; simpa using hq

/-- A path with a separator is its dirname joined with its basename. -/
theorem joinStr_dirname_basename (p : String) (h : '/' ∈ p.data)
    (hd : dirnameStr p ≠ "") : joinStr (dirnameStr p) (basenameStr p) = p := by
  have hsplit : p.data.reverse.takeWhile (fun c => decide (c ≠ '/')) ++
      p.data.reverse.dropWhile (fun c => decide (c ≠ '/')) = p.data.reverse :=
    List.takeWhile_append_dropWhile _ _
  rcases hdrop : p.data.reverse.dropWhile (fun c => decide (c ≠ '/')) with _ | ⟨b, t⟩
  · exfalso
    rw [hdrop, List.append_nil] at hsplit
    have hmem : '/' ∈ p.data.reverse.takeWhile (fun c => decide (c ≠ '/')) := by
      rw [hsplit, List.mem_reverse]
      exact h
    have := List.mem_takeWhile_imp hmem
    simp at this
  · have hb : b = '/' := by
      have := dropWhile_head_false _ _ _ hdrop
      simpa using this
    subst hb
    apply stringDataInj
    unfold joinStr
    rw [if_neg hd]
    simp only [String.data_append]
    have hdirdata : (dirnameStr p).data = t.reverse := by
      unfold dirnameStr
      rw [if_pos h]
      simp only
      rw [hdrop]
      simp
    have hbasedata : (basenameStr p).data =
        (p.data.reverse.takeWhile (fun c => decide (c ≠ '/'))).reverse := rfl
    have h2 := congrArg List.reverse hsplit
    rw [List.reverse_append, hdrop, List.reverse_reverse, List.reverse_cons] at h2
    rw [hdirdata, hbasedata]
    exact h2

/-- Every name a `readdirSync` listing returns joins with the directory back
to an existing file. -/
theorem hasFile_of_mem_readdir (fs : FS) (d f : String) (hdot : d ≠ ".") (hne : d ≠ "")
    (h : f ∈ readdirSync fs d) : hasFile fs (joinStr d f) = true := by
  unfold readdirSync at h
  rw [List.mem_map] at h
  obtain ⟨e, he, rfl⟩ := h
  rw [List.mem_filter] at he
  obtain ⟨hmem, hdir⟩ := he
  rw [decide_eq_true_eq] at hdir
  have hslash : '/' ∈ e.1.data := by
    by_contra hs
    rw [show dirnameStr e.1 = "." from by unfold dirnameStr; rw [if_neg hs]] at hdir
    exact hdot hdir.symm
  rw [← hdir, joinStr_dirname_basename e.1 hslash (by rw [hdir]; exact hne)]
  unfold hasFile
  rw [hasKey_iff_mem, List.mem_map]
  exact ⟨e, hmem, rfl⟩

/-- What a successful `matchingVideo` lookup returns. -/
theorem matchingVideo_some_spec (fs : FS) (photoPath videoDir v : String)
    (h : matchingVideo fs photoPath videoDir = some v) :
    ∃ f, v = joinStr videoDir f ∧ f ∈ readdirSync fs videoDir := by
  rw [matchingVideo, matchingVideoGo_eq] at h
  rcases hfind : (readdirSync fs videoDir).find? (matchCand (parseNameStr photoPath)) with
    _ | f
  · rw [hfind] at h
    exact absurd h (by simp)
  · rw [hfind] at h
    refine ⟨f, ?_, List.mem_of_find?_eq_some hfind⟩
    have : some (joinStr videoDir f) = some v := h
    injection this with hv
    exact hv.symm

/-- A successful `exiftool` write leaves `addXmpMetadata` total, and the
only file the annotator ever removes is its own `_original` sidecar. -/
theorem addXmpMetadata_pres (ext : Ext) (sys : Sys) (mergedFile : String) (offset : Int)
    (hok : ext.exifOk mergedFile = true) :
    ∃ sys', addXmpMetadata ext sys mergedFile offset = .ok sys' ∧
      ∀ q, q ≠ mergedFile ++ "_original" →
        hasFile sys.fs q = true → hasFile sys'.fs q = true := by
  unfold addXmpMetadata exiftoolWrite?
  rw [hok]
  simp only [if_true]
  have hpres₁ : ∀ q, hasFile sys.fs q = true →
      hasFile (writeFileSync sys.fs (mergedFile ++ "_original")
        ((readFileSync? sys.fs mergedFile).getD [])) q = true := by
    intro q hq
    rw [hasFile_writeFileSync, hq]
    simp
  rcases hu : unlinkSync? (writeFileSync sys.fs (mergedFile ++ "_original")
      ((readFileSync? sys.fs mergedFile).getD []))
      (mergedFile ++ "_original") with _ | fs₂
  · exact ⟨_, rfl, fun q _ hq => hpres₁ q hq⟩
  · refine ⟨_, rfl, ?_⟩
    intro q hqs hq
    unfold unlinkSync? at hu
    split at hu
    · injection hu with hu
      rw [← hu]
      unfold hasFile
      rw [hasKey_delKey_other _ _ _ hqs]
      exact hpres₁ q hq
    · cases hu

/-- When the external metadata write always succeeds, `createMotionPhoto` on
two existing files is total, never touches the problem list, and the only
file it ever removes is its own `_original` sidecar. -/
theorem createMotionPhoto_ok (ext : Ext) (st : St) (photoPath videoPath outputPath : String)
    (hexif : ∀ p, ext.exifOk p = true)
    (hp : hasFile st.sys.fs photoPath = true)
    (hv : hasFile st.sys.fs videoPath = true) :
    ∃ st', createMotionPhoto ext st photoPath videoPath outputPath = .ok st' ∧
      st'.problematicFiles = st.problematicFiles ∧
      (∀ q, q ≠ joinStr outputPath (basenameStr photoPath) ++ "_original" →
        hasFile st.sys.fs q = true → hasFile st'.sys.fs q = true) := by
  cases hval : validateMedia st.sys.fs photoPath videoPath with
  | false =>
    refine ⟨st, ?_, rfl, fun _ _ hq => hq⟩
    simp [createMotionPhoto, hval]
  | true =>
    have hpbs : (readFileSync? st.sys.fs photoPath).isSome := by
      rw [show readFileSync? st.sys.fs photoPath = findVal? st.sys.fs.files photoPath from rfl,
        ← hasKey_eq_isSome]
      exact hp
    obtain ⟨pb, hpb⟩ := Option.isSome_iff_exists.mp hpbs
    have hvbs : (readFileSync? st.sys.fs videoPath).isSome := by
      rw [show readFileSync? st.sys.fs videoPath = findVal? st.sys.fs.files videoPath from rfl,
        ← hasKey_eq_isSome]
      exact hv
    obtain ⟨vb, hvb⟩ := Option.isSome_iff_exists.mp hvbs
    have hmerge := mergeFiles_ok st photoPath videoPath outputPath pb vb hpb hvb
    have hreadP : ∃ c, readFileSync? (writeFileSync
        (mkdirRecursive st.sys.fs (dirnameStr (joinStr outputPath (basenameStr photoPath))))
        (joinStr outputPath (basenameStr photoPath)) (pb ++ vb)) photoPath = some c := by
      rw [readFileSync?_writeFileSync]
      by_cases hpo : photoPath = joinStr outputPath (basenameStr photoPath)
      · rw [if_pos hpo]; exact ⟨_, rfl⟩
      · rw [if_neg hpo, readFileSync?_mkdirRecursive]; exact ⟨pb, hpb⟩
    obtain ⟨c, hreadP⟩ := hreadP
    have hstatP : statSize? (writeFileSync
        (mkdirRecursive st.sys.fs (dirnameStr (joinStr outputPath (basenameStr photoPath))))
        (joinStr outputPath (basenameStr photoPath)) (pb ++ vb)) photoPath = some c.length := by
      unfold statSize?
      rw [hreadP]
      rfl
    obtain ⟨sys₂, hadd, hpres₂⟩ := addXmpMetadata_pres ext
      { st.sys with fs := (writeFileSync
          (mkdirRecursive st.sys.fs (dirnameStr (joinStr outputPath (basenameStr photoPath))))
          (joinStr outputPath (basenameStr photoPath)) (pb ++ vb)) }
      (joinStr outputPath (basenameStr photoPath))
      (((pb ++ vb).length : Int) - (c.length : Int))
      (hexif _)
    refine ⟨St.mk sys₂ st.problematicFiles (st.processedFiles ++ [photoPath, videoPath]),
      ?_, rfl, ?_⟩
    · simp only [createMotionPhoto, hval, Bool.not_true, Bool.false_eq_true, if_false,
        hmerge, hstatP, statSize?_writeFileSync_self, hadd]
    · intro q hqs hq
      apply hpres₂ q hqs
      rw [hasFile_writeFileSync, hasFile_mkdirRecursive, hq]
      simp

theorem deleteConvertedStep_problematic (flags : Flags) (st : St) (p : String) :
    (deleteConvertedStep flags st p).problematicFiles = st.problematicFiles := by
  unfold deleteConvertedStep
  split
  · split <;> rfl
  · rfl

theorem deleteConvertedStep_pres (flags : Flags) (st : St) (p q : String) (hq : q ≠ p)
    (h : hasFile st.sys.fs q = true) :
    hasFile (deleteConvertedStep flags st p).sys.fs q = true := by
  unfold deleteConvertedStep
  split
  · rcases hu : unlinkSync? st.sys.fs p with _ | fs₁
    · exact h
    · unfold unlinkSync? at hu
      split at hu
      · injection hu with hu
        rw [← hu]
        unfold hasFile
        rw [hasKey_delKey_other _ _ _ hq]
        exact h
      · cases hu
  · exact h

theorem jpg_name_no_slash (p : String) : '/' ∉ (parseNameStr p ++ ".jpg").data := by
  intro h
  rw [String.data_append] at h
  rcases List.mem_append.mp h with h' | h'
  · exact parseNameStr_no_slash p h'
  · exact absurd h' (by decide)

/-- The `.jpg`/`.jpeg` branch of the loop body is total when annotation
succeeds, never touches the problem list, and removes only its own sidecar. -/
theorem processJpegFile_ok (ext : Ext) (inDir outDir : String) (st : St) (f : String)
    (hexif : ∀ p, ext.exifOk p = true) (hne : inDir ≠ "") (hdot : inDir ≠ ".")
    (hpf : hasFile st.sys.fs (joinStr inDir f) = true) :
    ∃ st', processJpegFile ext inDir outDir st f = .ok st' ∧
      st'.problematicFiles = st.problematicFiles ∧
      (∀ q, imageExtFile q = true →
        hasFile st.sys.fs q = true → hasFile st'.sys.fs q = true) := by
  unfold processJpegFile
  dsimp only
  rcases hm : matchingVideo st.sys.fs (joinStr inDir f) inDir with _ | v
  · exact ⟨st, rfl, rfl, fun _ _ hq => hq⟩
  · obtain ⟨g, rfl, hgmem⟩ := matchingVideo_some_spec _ _ _ _ hm
    have hvfile := hasFile_of_mem_readdir st.sys.fs inDir g hdot hne hgmem
    obtain ⟨st', hok, hprob, hpres⟩ :=
      createMotionPhoto_ok ext st (joinStr inDir f) (joinStr inDir g) outDir hexif hpf hvfile
    refine ⟨st', hok, hprob, ?_⟩
    intro q himg hq
    exact hpres q (image_ne_sidecar q _ himg) hq

/-- The `.heic` branch of the loop body is total when annotation succeeds;
the problem list only grows, and every image-named path with a separator
other than the processed file itself is preserved. -/
theorem processHeicFile_ok (ext : Ext) (flags : Flags) (inDir outDir : String) (st : St)
    (f : String)
    (hexif : ∀ p, ext.exifOk p = true) (hne : inDir ≠ "") (hdot : inDir ≠ ".") :
    ∃ st', processHeicFile ext flags inDir outDir st f = .ok st' ∧
      st.problematicFiles <+: st'.problematicFiles ∧
      (∀ q, imageExtFile q = true → '/' ∈ q.data → q ≠ joinStr inDir f →
        hasFile st.sys.fs q = true → hasFile st'.sys.fs q = true) := by
  unfold processHeicFile
  dsimp only
  cases hcond : (flags.convertAllHeic ||
      (matchingVideo st.sys.fs (joinStr inDir f) inDir).isSome) with
  | false =>
    simp only [hcond, Bool.false_eq_true, if_false]
    exact ⟨st, rfl, List.prefix_rfl, fun _ _ _ _ hq => hq⟩
  | true =>
    simp only [hcond, if_true]
    cases hok : ext.heicOk (joinStr inDir f) with
    | false =>
      simp only [convertHeicToJpeg, hok, Bool.false_eq_true, if_false]
      refine ⟨_, rfl, ?_, ?_⟩
      · rw [deleteConvertedStep_problematic]
        exact List.prefix_append _ _
      · intro q _ _ hqf hq
        exact deleteConvertedStep_pres flags _ _ q hqf hq
    | true =>
      simp only [convertHeicToJpeg, hok, if_true]
      rcases hm : matchingVideo
          (writeFileSync st.sys.fs (parseNameStr (joinStr inDir f) ++ ".jpg")
            (ext.heicBytes (joinStr inDir f)))
          (parseNameStr (joinStr inDir f) ++ ".jpg") inDir with _ | v
      · refine ⟨_, rfl, ?_, ?_⟩
        · rw [deleteConvertedStep_problematic]
        · intro q _ _ hqf hq
          apply deleteConvertedStep_pres flags _ _ q hqf
          show hasFile (writeFileSync st.sys.fs (parseNameStr (joinStr inDir f) ++ ".jpg")
            (ext.heicBytes (joinStr inDir f))) q = true
          rw [hasFile_writeFileSync, hq]
          simp
      · obtain ⟨g, rfl, hgmem⟩ := matchingVideo_some_spec _ _ _ _ hm
        have hvfile := hasFile_of_mem_readdir _ inDir g hdot hne hgmem
        have hjfile : hasFile (writeFileSync st.sys.fs
            (parseNameStr (joinStr inDir f) ++ ".jpg")
            (ext.heicBytes (joinStr inDir f)))
            (parseNameStr (joinStr inDir f) ++ ".jpg") = true := by
          rw [hasFile_writeFileSync]
          simp
        obtain ⟨st₂, hok₂, hprob₂, hpres₂⟩ := createMotionPhoto_ok ext
          (St.mk (Sys.mk (writeFileSync st.sys.fs
              (parseNameStr (joinStr inDir f) ++ ".jpg")
              (ext.heicBytes (joinStr inDir f))) st.sys.xmp)
            st.problematicFiles (st.processedFiles ++ [joinStr inDir f]))
          (parseNameStr (joinStr inDir f) ++ ".jpg") (joinStr inDir g) outDir hexif
          hjfile hvfile
        simp only [hok₂]
        have hjp₂ : hasFile st₂.sys.fs (parseNameStr (joinStr inDir f) ++ ".jpg") = true :=
          hpres₂ _ (image_ne_sidecar _ _ (imageExtFile_jpg_append _)) hjfile
        have hun : unlinkSync? st₂.sys.fs (parseNameStr (joinStr inDir f) ++ ".jpg") =
            some { st₂.sys.fs with
              files := delKey st₂.sys.fs.files (parseNameStr (joinStr inDir f) ++ ".jpg") } := by
          simp only [unlinkSync?, hjp₂, if_true]
        simp only [hun]
        refine ⟨_, rfl, ?_, ?_⟩
        · rw [deleteConvertedStep_problematic]
          show st.problematicFiles <+: st₂.problematicFiles
          rw [hprob₂]
        · intro q himg hslash hqf hq
          apply deleteConvertedStep_pres flags _ _ q hqf
          have hq₁ : hasFile (writeFileSync st.sys.fs
              (parseNameStr (joinStr inDir f) ++ ".jpg")
              (ext.heicBytes (joinStr inDir f))) q = true := by
            rw [hasFile_writeFileSync, hq]
            simp
          have hq₂ := hpres₂ q (image_ne_sidecar q _ himg) hq₁
          have hqjp : q ≠ parseNameStr (joinStr inDir f) ++ ".jpg" := by
            intro hqq
            rw [hqq] at hslash
            exact jpg_name_no_slash (joinStr inDir f) hslash
          show hasFile _ q = true
          unfold hasFile
          rw [show ({ st₂.sys.fs with
              files := delKey st₂.sys.fs.files (parseNameStr (joinStr inDir f) ++ ".jpg") } :
              FS).files = delKey st₂.sys.fs.files (parseNameStr (joinStr inDir f) ++ ".jpg")
            from rfl]
          rw [hasKey_delKey_other _ _ _ hqjp]
          exact hq₂

/-- The batch loop is total when annotation succeeds, and the problem list
only grows along it. -/
theorem processFiles_ok (ext : Ext) (flags : Flags) (inDir outDir : String)
    (hexif : ∀ p, ext.exifOk p = true) (hne : inDir ≠ "") (hdot : inDir ≠ ".") :
    ∀ (files : List String) (st : St), files.Nodup →
      (∀ f ∈ files, imageExtFile f = true → hasFile st.sys.fs (joinStr inDir f) = true) →
      ∃ st', processFiles ext flags inDir outDir files st = .ok st' ∧
        st.problematicFiles <+: st'.problematicFiles := by
  intro files
  induction files with
  | nil => exact fun st _ _ => ⟨st, rfl, List.prefix_rfl⟩
  | cons f rest ih =>
    intro st hnd hinv
    unfold processFiles
    by_cases hheic : endsWithStr (lowerStr f) ".heic" = true
    · simp only [hheic, if_true]
      obtain ⟨st₁, hrun, hpre, hpres⟩ :=
        processHeicFile_ok ext flags inDir outDir st f hexif hne hdot
      have hinv' : ∀ g ∈ rest, imageExtFile g = true →
          hasFile st₁.sys.fs (joinStr inDir g) = true := by
        intro g hg himg
        have hgf : joinStr inDir g ≠ joinStr inDir f := by
          intro hj
          have := joinStr_right_inj inDir hj
          rw [this] at hg
          exact (List.nodup_cons.mp hnd).1 hg
        exact hpres (joinStr inDir g) (imageExtFile_joinStr inDir g himg)
          (slash_mem_joinStr inDir g hne) hgf
          (hinv g (List.mem_cons_of_mem f hg) himg)
      obtain ⟨st', hrun', hpre'⟩ := ih st₁ (List.nodup_cons.mp hnd).2 hinv'
      refine ⟨st', ?_, hpre.trans hpre'⟩
      rw [hrun]
      exact hrun'
    · have hheicF : endsWithStr (lowerStr f) ".heic" = false := by
        rw [Bool.eq_false_iff]
        exact hheic
      by_cases hjpg : (endsWithStr (lowerStr f) ".jpg" ||
          endsWithStr (lowerStr f) ".jpeg") = true
      · simp only [hheicF, Bool.false_eq_true, if_false, hjpg, if_true]
        have himgf : imageExtFile f = true := by
          unfold imageExtFile
          rcases Bool.or_eq_true_iff.mp hjpg with h' | h'
          · rw [h']
            simp
          · rw [h']
            simp
        obtain ⟨st₁, hrun, hprob, hpres⟩ := processJpegFile_ok ext inDir outDir st f
          hexif hne hdot (hinv f (List.mem_cons_self f rest) himgf)
        have hinv' : ∀ g ∈ rest, imageExtFile g = true →
            hasFile st₁.sys.fs (joinStr inDir g) = true := by
          intro g hg himg
          exact hpres (joinStr inDir g) (imageExtFile_joinStr inDir g himg)
            (hinv g (List.mem_cons_of_mem f hg) himg)
        obtain ⟨st', hrun', hpre'⟩ := ih st₁ (List.nodup_cons.mp hnd).2 hinv'
        refine ⟨st', ?_, ?_⟩
        · rw [hrun]
          exact hrun'
        · rw [← hprob]
          exact hpre'
      · have hjpgF : (endsWithStr (lowerStr f) ".jpg" ||
            endsWithStr (lowerStr f) ".jpeg") = false := by
          rw [Bool.eq_false_iff]
          exact hjpg
        simp only [hheicF, hjpgF, Bool.false_eq_true, if_false]
        exact ih st (List.nodup_cons.mp hnd).2
          (fun g hg himg => hinv g (List.mem_cons_of_mem f hg) himg)

/--
Counterexample to C5 as stated: with two matched pairs under `in/` and an
annotation (metadata-write) failure on the first pair's artifact, the
exception propagates out of the batch loop unhandled; the process terminates
with a non-zero exit code, the second pair is never processed, and no
problem report is written — the failed pair is invisible to the caller.
-/
theorem c5_counterexample :
    mainCore extExifFail flags0 stC5 "in" "out" = (1, none) ∧
    processFiles extExifFail flags0 "in" "out" (readdirSync stC5.sys.fs "in") stC5 =
      .error (.metadataWrite "out/A.jpg") := by
  decide

/--
**C5 (amended)** — In a batch run without the move-unmatched-files option
and in which the external metadata writes succeed, the batch loop never
aborts: `processDirectory` returns normally, the process exits with status
zero and writes the problem report exactly when the problem list is
non-empty, and the problem list only ever grows along the run; a failed HEIC
conversion records its input on the problem list and continues.  (An
annotation failure, by contrast, aborts the batch with a non-zero exit and
no report — `c5_counterexample`.)
-/
theorem c5_amended_conversion_failures_reported (ext : Ext) (flags : Flags) (st : St)
    (inputDir outputDir : String)
    (hexif : ∀ p, ext.exifOk p = true)
    (hmove : flags.moveOtherImages = false)
    (hvin : validateDirectory st.sys.fs inputDir = true)
    (hvout : validateDirectory st.sys.fs outputDir = true)
    (hne : inputDir ≠ "") (hdot : inputDir ≠ ".")
    (hnodup : (readdirSync st.sys.fs inputDir).Nodup) :
    (∃ st₁, processDirectory ext flags st inputDir outputDir = .ok st₁ ∧
      mainCore ext flags st inputDir outputDir =
        (0, if st₁.problematicFiles = [] then none else some st₁.problematicFiles) ∧
      st.problematicFiles <+: st₁.problematicFiles) ∧
    (∀ (st' : St) (heicPath : String), ext.heicOk heicPath = false →
      convertHeicToJpeg ext st' heicPath =
        ({ st' with problematicFiles := st'.problematicFiles ++ [heicPath] }, none)) := by
  constructor
  · have hinit : ∀ f ∈ readdirSync st.sys.fs inputDir, imageExtFile f = true →
        hasFile st.sys.fs (joinStr inputDir f) = true :=
      fun f hf _ => hasFile_of_mem_readdir st.sys.fs inputDir f hdot hne hf
    obtain ⟨st₁, hrun, hpre⟩ := processFiles_ok ext flags inputDir outputDir hexif hne hdot
      (readdirSync st.sys.fs inputDir) st hnodup hinit
    have hpd : processDirectory ext flags st inputDir outputDir = .ok st₁ := by
      unfold processDirectory
      rw [hvin, hvout]
      simp only [Bool.not_true, Bool.false_eq_true, if_false, hrun, hmove]
    refine ⟨st₁, hpd, ?_, hpre⟩
    unfold mainCore
    rw [hvin]
    simp only [Bool.not_true, Bool.false_eq_true, if_false, hpd]
  · intro st' heicPath hfail
    simp [convertHeicToJpeg, hfail]

/-- Witness for the amended C5: a HEIC pair whose conversion fails plus a
JPEG pair; the run finishes with exit status zero and the failed HEIC file
is listed in the written problem report. -/
theorem c5_witness :
    mainCore extHeicFail flags0 stC5w "in" "out" = (0, some ["in/c.heic"]) ∧
    ((∃ st₁, processDirectory extHeicFail flags0 stC5w "in" "out" = .ok st₁ ∧
      mainCore extHeicFail flags0 stC5w "in" "out" =
        (0, if st₁.problematicFiles = [] then none else some st₁.problematicFiles) ∧
      stC5w.problematicFiles <+: st₁.problematicFiles) ∧
    (∀ (st' : St) (heicPath : String), extHeicFail.heicOk heicPath = false →
      convertHeicToJpeg extHeicFail st' heicPath =
        ({ st' with problematicFiles := st'.problematicFiles ++ [heicPath] }, none))) :=
  ⟨by decide,
    c5_amended_conversion_failures_reported extHeicFail flags0 stC5w "in" "out"
      (fun _ => rfl) rfl (by decide) (by decide) (by decide) (by decide) (by decide)⟩

/-- Witness for C10 at a folder already holding `f.txt` and `f(1).txt`:
the free name is found and moving onto it leaves the existing files as they
were. -/
theorem c10_witness :
    existsSync fsC10 (uniquePath fsC10 "o" "f.txt") = false ∧
    renameSync? fsC10 "x/f.txt" (uniquePath fsC10 "o" "f.txt") = some c10fs ∧
    existsSync fsC10 "o/f.txt" = true ∧
    readFileSync? c10fs "o/f.txt" = readFileSync? fsC10 "o/f.txt" :=
  ⟨(c10_uniquePath_fresh fsC10 "o" "f.txt").1, by decide, by decide,
    (c10_uniquePath_fresh fsC10 "o" "f.txt").2 "x/f.txt" c10fs "o/f.txt"
      (by decide) (by decide) (by decide)⟩

end HeicMov
